import Mathlib

set_option linter.unusedVariables false

/-!
Verification development for the WeSplit receipt-extraction AiAgent.

The definitions below are a shallow embedding of the Python sources:
  * `src/services/ai/AiAgent/src/core/response_parser.py` (JSON span extractor),
  * `src/AiAgent/src/core/json_formatter.py` (receipt schema validator),
  * `src/services/ai/AiAgent/src/core/extraction_orchestrator.py` (orchestrator),
  * `src/services/ai/AiAgent/src/core/error_handler.py` (error mapping),
  * `src/services/ai/AiAgent/src/api/openrouter_client.py` (backoff stats fetcher).

Strings are embedded as `List Char`; Python floats as `ℚ` (the monetary
arithmetic in the claims is exact in both); fallible Python code as
`Option`/`Except`.  Python's `json.loads` is embedded as an executable
recursive-descent parser for the JSON grammar it accepts (RFC 8259 plus the
CPython extensions `NaN`/`Infinity`/`-Infinity`); `\uXXXX` escapes are decoded
code-point-wise (surrogate-pair combination is not modelled, no claim touches
it).
-/

namespace WeSplit

abbrev Str := List Char

/-- Python `json` whitespace characters (space, tab, newline, carriage return). -/
def isWsChar (c : Char) : Bool := c = ' ' || c = '\t' || c = '\n' || c = '\r'

def isDigitChar (c : Char) : Bool := '0' ≤ c && c ≤ '9'

def isHexChar (c : Char) : Bool :=
  isDigitChar c || ('a' ≤ c && c ≤ 'f') || ('A' ≤ c && c ≤ 'F')

/-- Values produced by Python's `json.loads`: objects keep field order (so that
`dict` semantics — later duplicate keys win — can be reproduced), numbers are
exact rationals, and the CPython constants `NaN`, `Infinity`, `-Infinity` get
their own constructors. -/
inductive JVal where
  | obj (fields : List (Str × JVal))
  | arr (elems : List JVal)
  | str (s : Str)
  | num (q : ℚ)
  | bool (b : Bool)
  | null
  | nan
  | inf (neg : Bool)

def skipWs : Str → Str
  | [] => []
  | c :: t => if isWsChar c then skipWs t else c :: t

def hexVal (c : Char) : Nat :=
  if isDigitChar c then c.toNat - '0'.toNat
  else if 'a' ≤ c && c ≤ 'f' then c.toNat - 'a'.toNat + 10
  else c.toNat - 'A'.toNat + 10

/-- The single-character JSON string escapes accepted by Python. -/
def escChar (c : Char) : Option Char :=
  if c = '"' then some '"'
  else if c = '\\' then some '\\'
  else if c = '/' then some '/'
  else if c = 'b' then some (Char.ofNat 8)
  else if c = 'f' then some (Char.ofNat 12)
  else if c = 'n' then some '\n'
  else if c = 'r' then some '\r'
  else if c = 't' then some '\t'
  else none

/-- Body of a JSON string, entered after the opening quote; returns the decoded
value and the remaining input after the closing quote.  Unescaped control
characters below 0x20 are rejected (Python `strict=True` default). -/
def uniChar (h1 h2 h3 h4 : Char) : Char :=
  Char.ofNat (((hexVal h1 * 16 + hexVal h2) * 16 + hexVal h3) * 16 + hexVal h4)

/-- Body of a JSON string, entered after the opening quote; returns the decoded
value and the remaining input after the closing quote.  Unescaped control
characters below 0x20 are rejected (Python `strict=True` default). -/
def pStrBody : Str → Option (Str × Str)
  | [] => none
  | c :: t =>
    if c = '"' then some ([], t)
    else if c = '\\' then
      match t with
      | [] => none
      | e :: t2 =>
        if e = 'u' then
          match t2 with
          | h1 :: h2 :: h3 :: h4 :: t3 =>
            if isHexChar h1 && isHexChar h2 && isHexChar h3 && isHexChar h4 then
              match pStrBody t3 with
              | some (v, r) => some (uniChar h1 h2 h3 h4 :: v, r)
              | none => none
            else none
          | _ => none
        else
          match escChar e with
          | some d =>
            match pStrBody t2 with
            | some (v, r) => some (d :: v, r)
            | none => none
          | none => none
    else if c.toNat < 32 then none
    else
      match pStrBody t with
      | some (v, r) => some (c :: v, r)
      | none => none

def decDigits (ds : Str) : Nat := ds.foldl (fun a c => a * 10 + (c.toNat - '0'.toNat)) 0

/-- Integer part of a JSON number: `0`, or a nonzero digit followed by digits. -/
def pIntPart : Str → Option (Nat × Str)
  | [] => none
  | c :: t =>
    if c = '0' then some (0, t)
    else if isDigitChar c then
      some (decDigits ((c :: t).takeWhile isDigitChar), (c :: t).dropWhile isDigitChar)
    else none

/-- Optional fraction part `.digits` of a JSON number. -/
def pFracPart : Str → Option (ℚ × Str)
  | [] => some (0, [])
  | c :: t =>
    if c = '.' then
      if t.takeWhile isDigitChar = [] then none
      else
        some ((decDigits (t.takeWhile isDigitChar) : ℚ) / (10 : ℚ) ^ (t.takeWhile isDigitChar).length,
          t.dropWhile isDigitChar)
    else some (0, c :: t)

def pExpDigits (sgn : ℤ) (t : Str) : Option (ℤ × Str) :=
  if t.takeWhile isDigitChar = [] then none
  else some (sgn * (decDigits (t.takeWhile isDigitChar) : ℤ), t.dropWhile isDigitChar)

/-- Optional exponent part `[eE][+-]?digits` of a JSON number. -/
def pExpPart : Str → Option (ℤ × Str)
  | [] => some (0, [])
  | c :: t =>
    if c = 'e' || c = 'E' then
      match t with
      | [] => pExpDigits 1 []
      | c2 :: t2 =>
        if c2 = '-' then pExpDigits (-1) t2
        else if c2 = '+' then pExpDigits 1 t2
        else pExpDigits 1 (c2 :: t2)
    else some (0, c :: t)

def pNumMag (neg : Bool) (cs1 : Str) : Option (ℚ × Str) :=
  match pIntPart cs1 with
  | none => none
  | some (ip, r1) =>
    match pFracPart r1 with
    | none => none
    | some (fp, r2) =>
      match pExpPart r2 with
      | none => none
      | some (ev, r3) =>
        let mag : ℚ := ((ip : ℚ) + fp) * (10 : ℚ) ^ ev
        some (if neg then -mag else mag, r3)

def pNumber : Str → Option (ℚ × Str)
  | '-' :: t => pNumMag true t
  | cs => pNumMag false cs

def litP (pat : Str) (cs : Str) : Option Str :=
  if pat.isPrefixOf cs then some (cs.drop pat.length) else none

/-- Parser mode: which nonterminal of the JSON grammar is being consumed.
`value` is one JSON value; `members`/`elements` are the bodies of a nonempty
object/array (with the already-parsed fields accumulated); `element` is RFC
8259 `ws value ws`.  A single fuel-indexed function keeps the recursion
structural so that the kernel can evaluate it. -/
inductive PMode where
  | value
  | members (acc : List (Str × JVal))
  | elements (acc : List JVal)
  | element

/-- One JSON value / member list / element list, as Python's scanner accepts it. -/
def pAny : Nat → PMode → Str → Option (JVal × Str)
  | 0, _, _ => none
  | f + 1, .value, cs =>
    match cs with
    | [] => none
    | c :: t =>
      if c = '\x7b' then
        match skipWs t with
        | '\x7d' :: r => some (.obj [], r)
        | r => pAny f (.members []) r
      else if c = '[' then
        match skipWs t with
        | ']' :: r => some (.arr [], r)
        | r => pAny f (.elements []) r
      else if c = '"' then
        match pStrBody t with
        | some (v, r) => some (.str v, r)
        | none => none
      else if c = 't' then
        match litP "rue".data t with
        | some r => some (.bool true, r)
        | none => none
      else if c = 'f' then
        match litP "alse".data t with
        | some r => some (.bool false, r)
        | none => none
      else if c = 'n' then
        match litP "ull".data t with
        | some r => some (.null, r)
        | none => none
      else if c = 'N' then
        match litP "aN".data t with
        | some r => some (.nan, r)
        | none => none
      else if c = 'I' then
        match litP "nfinity".data t with
        | some r => some (.inf false, r)
        | none => none
      else if c = '-' then
        match pNumber (c :: t) with
        | some (q, r) => some (.num q, r)
        | none =>
          match litP "Infinity".data t with
          | some r => some (.inf true, r)
          | none => none
      else
        match pNumber (c :: t) with
        | some (q, r) => some (.num q, r)
        | none => none
  | f + 1, .members acc, cs =>
    match cs with
    | '"' :: t =>
      match pStrBody t with
      | some (k, r1) =>
        match skipWs r1 with
        | ':' :: r3 =>
          match pAny f .element r3 with
          | some (v, r4) =>
            match r4 with
            | ',' :: r5 => pAny f (.members (acc ++ [(k, v)])) (skipWs r5)
            | '\x7d' :: r5 => some (.obj (acc ++ [(k, v)]), r5)
            | _ => none
          | none => none
        | _ => none
      | none => none
    | _ => none
  | f + 1, .elements acc, cs =>
    match pAny f .element cs with
    | some (v, r) =>
      match r with
      | ',' :: r2 => pAny f (.elements (acc ++ [v])) r2
      | ']' :: r2 => some (.arr (acc ++ [v]), r2)
      | _ => none
    | none => none
  | f + 1, .element, cs =>
    match pAny f .value (skipWs cs) with
    | some (v, r) => some (v, skipWs r)
    | none => none

def pValue (f : Nat) (cs : Str) : Option (JVal × Str) := pAny f .value cs

/-- Fuel that is always sufficient: every recursive descent step strictly
consumes input, and the mutual chain costs at most 3 fuel per consumed char. -/
def jparseFuel (cs : Str) : Nat := 4 * cs.length + 16

/-- Embedding of Python `json.loads` on character lists: optional surrounding
whitespace around exactly one value ("Extra data" otherwise). -/
def jparse (cs : Str) : Option JVal :=
  match pValue (jparseFuel cs) (skipWs cs) with
  | some (v, r) => if skipWs r = [] then some v else none
  | none => none

/-- `json.loads` succeeds. -/
def jloads (cs : Str) : Bool := (jparse cs).isSome

/-! ## The JSON span extractor
`ResponseParser.extract_json_from_response` in `core/response_parser.py`:
first the ```` ```json … ``` ```` fenced-block regex, then the single-pass
bracket-depth state machine, each followed by a `json.loads` check. -/

/-- State of the character scan in `extract_json_from_response`:
`esc` = `escape_next`, `ins` = `in_string`; `d1`/`d2` track the running
`{`/`}` and `[`/`]` depths (the Python loop keeps a single `depth` for the
pair fixed by `open_char`; tracking both lets one machine serve both cases). -/
structure MSt where
  esc : Bool
  ins : Bool
  d1 : Int
  d2 : Int
deriving DecidableEq

/-- One iteration of the Python scanning loop (the bracket bookkeeping part;
span opening/closing is layered on top in `scanFind`/`scanEnd`). -/
def mstep (s : MSt) (ch : Char) : MSt :=
  if s.esc then { s with esc := false }
  else if ch = '\\' then { s with esc := true }
  else if ch = '"' then { s with ins := !s.ins }
  else if s.ins then s
  else if ch = '\x7b' then { s with d1 := s.d1 + 1 }
  else if ch = '\x7d' then { s with d1 := s.d1 - 1 }
  else if ch = '[' then { s with d2 := s.d2 + 1 }
  else if ch = ']' then { s with d2 := s.d2 - 1 }
  else s

def mrun (s : MSt) (cs : Str) : MSt := cs.foldl mstep s

/-- Select the depth of the bracket pair being tracked (`true` = braces). -/
def dOf (ob : Bool) (s : MSt) : Int := if ob then s.d1 else s.d2

def initSt (ob : Bool) : MSt :=
  ⟨false, false, if ob then 1 else 0, if ob then 0 else 1⟩

/-- Phase 1 of the Python loop: before `start_pos` is found.  Stops at the
first `{` or `[` encountered outside a string, returning which pair was
opened and its index. -/
def scanFind : MSt → Str → Nat → Option (Bool × Nat)
  | _, [], _ => none
  | s, ch :: t, i =>
    if s.esc then scanFind { s with esc := false } t (i + 1)
    else if ch = '\\' then scanFind { s with esc := true } t (i + 1)
    else if ch = '"' then scanFind { s with ins := !s.ins } t (i + 1)
    else if s.ins then scanFind s t (i + 1)
    else if ch = '\x7b' then some (true, i)
    else if ch = '[' then some (false, i)
    else scanFind s t (i + 1)

/-- Phase 2 of the Python loop: after the span opened with depth 1.  Returns
`end_pos` (`i + 1` of the char that brought the tracked depth to 0). -/
def scanEnd (ob : Bool) : MSt → Str → Nat → Option Nat
  | _, [], _ => none
  | s, ch :: t, i =>
    let s2 := mstep s ch
    if dOf ob s = 1 ∧ dOf ob s2 = 0 then some (i + 1)
    else scanEnd ob s2 t (i + 1)

/-- The state-machine stage of `extract_json_from_response`: find the span,
slice `text[start_pos:end_pos]`, accept it only if `json.loads` does. -/
def scannerPath (cs : Str) : Option Str :=
  match scanFind ⟨false, false, 0, 0⟩ cs 0 with
  | none => none
  | some (ob, start) =>
    match scanEnd ob (initSt ob) (cs.drop (start + 1)) (start + 1) with
    | none => none
    | some stop =>
      let cand := (cs.drop start).take (stop - start)
      if jloads cand then some cand else none

def fenceMarker : Str := "```json".data

def dropTrailWs (cs : Str) : Str := (cs.reverse.dropWhile isWsChar).reverse

/-- Characters before the first occurrence of three backticks, if any. -/
def takeUntilTicks : Str → Option Str
  | [] => none
  | c :: t =>
    if ("```".data).isPrefixOf (c :: t) then some []
    else
      match takeUntilTicks t with
      | some u => some (c :: u)
      | none => none

/-- Embedding of `re.search(r'```json\s*(.*?)\s*```', text, re.DOTALL)`:
the leftmost ```` ```json ```` marker that is followed (anywhere) by a
closing ```` ``` ```` matches; the lazy group is the text strictly between,
with the whitespace runs adjacent to the two delimiters absorbed by the
greedy `\s*`s. -/
def fenceSearch : Str → Option Str
  | [] => none
  | c :: t =>
    if fenceMarker.isPrefixOf (c :: t) then
      match takeUntilTicks (((c :: t).drop 7).dropWhile isWsChar) with
      | some beforeTicks => some (dropTrailWs beforeTicks)
      | none => fenceSearch t
    else fenceSearch t

/-- `ResponseParser.extract_json_from_response` (`core/response_parser.py`):
`none` is the `ValueError` ("Impossible d'extraire un objet ou un tableau
JSON complet et valide."). -/
def extract_json_from_response (cs : Str) : Option Str :=
  match fenceSearch cs with
  | some inner => if jloads inner then some inner else scannerPath cs
  | none => scannerPath cs

/-! ## Correctness of the bracket-depth state machine

`Seg u` says: running the Python scanning loop over `u` from a clean state
returns to a clean state with both bracket depths back where they started,
and no prefix of `u` ever drives either depth negative.  Every text consumed
by the JSON parser as a syntactic unit is a `Seg`; this is what makes the
single-pass scanner find the exact end of a well-formed JSON value. -/

def neutralSt : MSt := ⟨false, false, 0, 0⟩

def PrefOk (u : Str) : Prop :=
  ∀ a b, u = a ++ b → 0 ≤ (mrun neutralSt a).d1 ∧ 0 ≤ (mrun neutralSt a).d2

def Seg (u : Str) : Prop := mrun neutralSt u = neutralSt ∧ PrefOk u

theorem mrun_nil (s : MSt) : mrun s [] = s := rfl

theorem mrun_cons (s : MSt) (c : Char) (cs : Str) :
    mrun s (c :: cs) = mrun (mstep s c) cs := rfl

theorem mrun_append (s : MSt) (u v : Str) :
    mrun s (u ++ v) = mrun (mrun s u) v := List.foldl_append mstep s u v

/-- The scanner transition ignores the depth counters when branching, so the
depths translate. -/
theorem mstep_shift (s : MSt) (x y : Int) (ch : Char) :
    mstep ⟨s.esc, s.ins, s.d1 + x, s.d2 + y⟩ ch =
      ⟨(mstep s ch).esc, (mstep s ch).ins, (mstep s ch).d1 + x, (mstep s ch).d2 + y⟩ := by
  rcases s with ⟨e, i, a, b⟩
  unfold mstep
  dsimp only
  split_ifs <;> simp [MSt.mk.injEq] <;> omega

theorem mrun_shift (u : Str) : ∀ (s : MSt) (x y : Int),
    mrun ⟨s.esc, s.ins, s.d1 + x, s.d2 + y⟩ u =
      ⟨(mrun s u).esc, (mrun s u).ins, (mrun s u).d1 + x, (mrun s u).d2 + y⟩ := by
  induction u with
  | nil => intro s x y; rfl
  | cons c t ih =>
    intro s x y
    rw [mrun_cons, mrun_cons, mstep_shift]
    exact ih (mstep s c) x y

/-- Characters that the scanning loop treats as fully inert (outside strings). -/
def inertChar (c : Char) : Bool :=
  !(c = '\\' || c = '"' || c = '\x7b' || c = '\x7d' || c = '[' || c = ']')

theorem inert_spec {c : Char} (h : inertChar c = true) :
    c ≠ '\\' ∧ c ≠ '"' ∧ c ≠ '\x7b' ∧ c ≠ '\x7d' ∧ c ≠ '[' ∧ c ≠ ']' := by
  simp only [inertChar, Bool.not_or, Bool.and_eq_true, Bool.not_eq_true',
    decide_eq_false_iff_not] at h
  exact ⟨h.1.1.1.1.1, h.1.1.1.1.2, h.1.1.1.2, h.1.1.2, h.1.2, h.2⟩

theorem mstep_inert {c : Char} (h : inertChar c = true) {s : MSt} (he : s.esc = false) :
    mstep s c = s := by
  obtain ⟨h1, h2, h3, h4, h5, h6⟩ := inert_spec h
  simp only [mstep, he, Bool.false_eq_true, if_false, if_neg h1, if_neg h2, if_neg h3,
    if_neg h4, if_neg h5, if_neg h6]
  split <;> rfl

theorem mrun_inert (u : Str) (hu : ∀ c ∈ u, inertChar c = true) :
    ∀ s : MSt, s.esc = false → mrun s u = s := by
  induction u with
  | nil => intro s _; rfl
  | cons c t ih =>
    intro s hs
    rw [mrun_cons, mstep_inert (hu c (by simp)) hs]
    exact ih (fun x hx => hu x (by simp [hx])) s hs

theorem seg_of_inert (u : Str) (hu : ∀ c ∈ u, inertChar c = true) : Seg u := by
  constructor
  · exact mrun_inert u hu neutralSt rfl
  · intro a b hab
    have := mrun_inert a (fun c hc => hu c (by rw [hab]; exact List.mem_append_left b hc))
      neutralSt rfl
    rw [this]
    exact ⟨le_refl 0, le_refl 0⟩

theorem ws_inert {c : Char} (h : isWsChar c = true) : inertChar c = true := by
  simp only [isWsChar, Bool.or_eq_true, decide_eq_true_eq] at h
  rcases h with ((h | h) | h) | h <;> subst h <;> decide

theorem digit_inert {c : Char} (h : isDigitChar c = true) : inertChar c = true := by
  simp only [isDigitChar, Bool.and_eq_true, decide_eq_true_eq] at h
  simp only [inertChar, Bool.not_or, Bool.and_eq_true, Bool.not_eq_true',
    decide_eq_false_iff_not]
  refine ⟨⟨⟨⟨⟨?_, ?_⟩, ?_⟩, ?_⟩, ?_⟩, ?_⟩ <;> rintro rfl <;> exact absurd h (by decide)

theorem Seg.nil : Seg [] := ⟨rfl, by intro a b hab; simp_all [mrun_nil, neutralSt]⟩

theorem Seg.append {u v : Str} (hu : Seg u) (hv : Seg v) : Seg (u ++ v) := by
  obtain ⟨hur, hup⟩ := hu
  obtain ⟨hvr, hvp⟩ := hv
  constructor
  · rw [mrun_append, hur, hvr]
  · intro a b hab
    rcases (List.append_eq_append_iff).mp hab with ⟨w, hw1, hw2⟩ | ⟨w, hw1, hw2⟩
    · -- here a = u ++ w and v = w ++ b
      subst hw1
      rw [mrun_append, hur]
      exact hvp w b hw2
    · -- here u = a ++ w
      exact hup a w hw1

/-- Behaviour of the scanner inside a string literal: from a state inside a
string (no pending escape) the machine returns to the matching not-in-string
state at the closing quote, and no prefix moves either depth. -/
def StrTail (u : Str) : Prop :=
  ∀ s : MSt, s.esc = false → s.ins = true →
    mrun s u = ⟨false, false, s.d1, s.d2⟩ ∧
    ∀ a b, u = a ++ b → (mrun s a).d1 = s.d1 ∧ (mrun s a).d2 = s.d2

theorem mstep_instring {c : Char} (h1 : c ≠ '"') (h2 : c ≠ '\\') {s : MSt}
    (he : s.esc = false) (hi : s.ins = true) : mstep s c = s := by
  simp only [mstep, he, Bool.false_eq_true, if_false, if_neg h2, if_neg h1, hi, if_true]

theorem mrun_esc2 (s : MSt) (e : Char) (he : s.esc = false) :
    mstep (mstep s '\\') e = s := by
  rcases s with ⟨e0, i, a, b⟩
  simp only at he
  subst he
  rfl

theorem mstep_escape_d (s : MSt) (he : s.esc = false) :
    (mstep s '\\').d1 = s.d1 ∧ (mstep s '\\').d2 = s.d2 ∧ (mstep s '\\').esc = true := by
  rcases s with ⟨e0, i, a, b⟩
  simp only at he
  subst he
  exact ⟨rfl, rfl, rfl⟩

theorem hex_ne {c : Char} (h : isHexChar c = true) : c ≠ '"' ∧ c ≠ '\\' := by
  constructor <;> rintro rfl <;> revert h <;> decide

theorem StrTail.quote : StrTail ['"'] := by
  intro s he hi
  have hq : mstep s '"' = ⟨false, false, s.d1, s.d2⟩ := by
    rcases s with ⟨e0, i, a, b⟩
    simp only at he hi
    subst he; subst hi
    rfl
  refine ⟨hq, ?_⟩
  intro a b hab
  cases a with
  | nil => exact ⟨rfl, rfl⟩
  | cons x a' =>
    injection hab with hx ha
    have ha' : a' = [] := by
      cases a' with
      | nil => rfl
      | cons y t => simp at ha
    subst ha'; subst hx
    rw [show mrun s ['"'] = mstep s '"' from rfl, hq]
    exact ⟨rfl, rfl⟩

theorem StrTail.cons_plain {c : Char} (h1 : c ≠ '"') (h2 : c ≠ '\\') {u : Str}
    (hu : StrTail u) : StrTail (c :: u) := by
  intro s he hi
  have hst : mstep s c = s := mstep_instring h1 h2 he hi
  refine ⟨?_, ?_⟩
  · rw [mrun_cons, hst]
    exact (hu s he hi).1
  · intro a b hab
    cases a with
    | nil => exact ⟨rfl, rfl⟩
    | cons x a' =>
      injection hab with hx ha
      subst hx
      rw [mrun_cons, hst]
      exact (hu s he hi).2 a' b ha

theorem StrTail.cons_esc (e : Char) {u : Str} (hu : StrTail u) : StrTail ('\\' :: e :: u) := by
  intro s he hi
  have h2 : mstep (mstep s '\\') e = s := mrun_esc2 s e he
  refine ⟨?_, ?_⟩
  · rw [mrun_cons, mrun_cons, h2]
    exact (hu s he hi).1
  · intro a b hab
    cases a with
    | nil => exact ⟨rfl, rfl⟩
    | cons x a' =>
      injection hab with hx ha
      subst hx
      cases a' with
      | nil =>
        obtain ⟨hd1, hd2, _⟩ := mstep_escape_d s he
        exact ⟨hd1, hd2⟩
      | cons y a'' =>
        injection ha with hy ha2
        subst hy
        rw [mrun_cons, mrun_cons, h2]
        exact (hu s he hi).2 a'' b ha2

theorem seg_of_strTail {u : Str} (h : StrTail u) : Seg ('"' :: u) := by
  have hq : mstep neutralSt '"' = ⟨false, true, 0, 0⟩ := rfl
  obtain ⟨hrun, hpref⟩ := h ⟨false, true, 0, 0⟩ rfl rfl
  constructor
  · rw [show mrun neutralSt ('"' :: u) = mrun (mstep neutralSt '"') u from rfl, hq, hrun]
    rfl
  · intro a b hab
    cases a with
    | nil => exact ⟨le_refl 0, le_refl 0⟩
    | cons x a' =>
      injection hab with hx ha
      subst hx
      rw [mrun_cons, hq]
      obtain ⟨hd1, hd2⟩ := hpref a' b ha
      rw [hd1, hd2]
      exact ⟨le_refl 0, le_refl 0⟩

theorem escChar_ne {e d : Char} (h : escChar e = some d) : True := trivial

/-- `pStrBody` consumes a well-behaved string tail. -/
theorem pStrBody_split : ∀ cs v rest, pStrBody cs = some (v, rest) →
    ∃ u, cs = u ++ rest ∧ StrTail u := by
  intro cs
  induction cs using pStrBody.induct with
  | case1 =>
    intro v rest h
    simp [pStrBody] at h
  | case2 t =>
    intro v rest h
    rw [pStrBody.eq_def] at h
    simp at h
    obtain ⟨hv, hr⟩ := h
    subst hr
    exact ⟨['"'], rfl, StrTail.quote⟩
  | case3 hne =>
    intro v rest h
    rw [pStrBody.eq_def] at h
    simp at h
  | case4 h1 h2 h3 h4 t3 hhex v1 r hx hne ih =>
    intro v rest h
    rw [pStrBody.eq_def] at h
    simp [hhex, hx] at h
    obtain ⟨hv, hr⟩ := h
    obtain ⟨u', hu', hst⟩ := ih v1 r hx
    simp only [Bool.and_eq_true] at hhex
    obtain ⟨⟨⟨hh1, hh2⟩, hh3⟩, hh4⟩ := hhex
    refine ⟨'\\' :: 'u' :: h1 :: h2 :: h3 :: h4 :: u', ?_, ?_⟩
    · subst hr
      rw [hu']
      simp
    · exact StrTail.cons_esc 'u'
        (StrTail.cons_plain (hex_ne hh1).1 (hex_ne hh1).2
          (StrTail.cons_plain (hex_ne hh2).1 (hex_ne hh2).2
            (StrTail.cons_plain (hex_ne hh3).1 (hex_ne hh3).2
              (StrTail.cons_plain (hex_ne hh4).1 (hex_ne hh4).2 hst))))
  | case5 h1 h2 h3 h4 t3 hhex hx hne ih =>
    intro v rest h
    rw [pStrBody.eq_def] at h
    simp [hhex, hx] at h
  | case6 h1 h2 h3 h4 t3 hhex hne =>
    intro v rest h
    rw [pStrBody.eq_def] at h
    simp [hhex] at h
  | case7 t2 hshape hne =>
    intro v rest h
    rcases t2 with _ | ⟨a1, t2⟩
    · rw [pStrBody.eq_def] at h; simp at h
    · rcases t2 with _ | ⟨a2, t2⟩
      · rw [pStrBody.eq_def] at h; simp at h
      · rcases t2 with _ | ⟨a3, t2⟩
        · rw [pStrBody.eq_def] at h; simp at h
        · rcases t2 with _ | ⟨a4, t2⟩
          · rw [pStrBody.eq_def] at h; simp at h
          · exact False.elim (hshape a1 a2 a3 a4 t2 rfl)
  | case8 e t2 hne2 d hesc v1 r hx hne ih =>
    intro v rest h
    rw [pStrBody.eq_def] at h
    simp [hesc, hx, hne2] at h
    obtain ⟨hv, hr⟩ := h
    obtain ⟨u', hu', hst⟩ := ih v1 r hx
    refine ⟨'\\' :: e :: u', ?_, StrTail.cons_esc e hst⟩
    subst hr
    rw [hu']
    simp
  | case9 e t2 hne2 d hesc hx hne ih =>
    intro v rest h
    rw [pStrBody.eq_def] at h
    simp [hesc, hx, hne2] at h
  | case10 e t2 hne2 hesc hne =>
    intro v rest h
    rw [pStrBody.eq_def] at h
    simp [hesc, hne2] at h
  | case11 c t hq hb hlt =>
    intro v rest h
    rw [pStrBody.eq_def] at h
    simp [hq, hb, hlt] at h
  | case12 c t hq hb hlt v1 r hx ih =>
    intro v rest h
    rw [pStrBody.eq_def] at h
    simp [hx, hq, hb, hlt] at h
    obtain ⟨hv, hr⟩ := h
    obtain ⟨u', hu', hst⟩ := ih v1 r hx
    refine ⟨c :: u', ?_, StrTail.cons_plain hq hb hst⟩
    subst hr
    rw [hu']
    simp
  | case13 c t hq hb hlt hx ih =>
    intro v rest h
    rw [pStrBody.eq_def] at h
    simp [hq, hb, hlt, hx] at h

theorem skipWs_split (cs : Str) : ∃ u, cs = u ++ skipWs cs ∧ ∀ c ∈ u, isWsChar c = true := by
  induction cs with
  | nil => exact ⟨[], rfl, by simp⟩
  | cons c t ih =>
    by_cases h : isWsChar c = true
    · obtain ⟨u, hu, hw⟩ := ih
      refine ⟨c :: u, ?_, ?_⟩
      · simp only [skipWs, h, if_true, List.cons_append]
        exact congrArg (c :: ·) hu
      · intro x hx
        rcases List.mem_cons.mp hx with rfl | hx
        · exact h
        · exact hw x hx
    · refine ⟨[], ?_, by simp⟩
      simp [skipWs, h]

theorem seg_of_ws {u : Str} (hw : ∀ c ∈ u, isWsChar c = true) : Seg u :=
  seg_of_inert u (fun c hc => ws_inert (hw c hc))

theorem litP_split (pat cs r : Str) (h : litP pat cs = some r) : cs = pat ++ r := by
  unfold litP at h
  split_ifs at h with hp
  · injection h with h2
    obtain ⟨w, hw⟩ := List.isPrefixOf_iff_prefix.mp hp
    subst hw
    rw [List.drop_left] at h2
    rw [h2]

theorem takeWhile_digit_split (t : Str) :
    t = t.takeWhile isDigitChar ++ t.dropWhile isDigitChar ∧
      ∀ c ∈ t.takeWhile isDigitChar, inertChar c = true := by
  constructor
  · exact (List.takeWhile_append_dropWhile isDigitChar t).symm
  · intro c hc
    exact digit_inert (List.mem_takeWhile_imp hc)

theorem pIntPart_split (cs : Str) (n : Nat) (rest : Str) (h : pIntPart cs = some (n, rest)) :
    ∃ u, cs = u ++ rest ∧ ∀ c ∈ u, inertChar c = true := by
  cases cs with
  | nil => simp [pIntPart] at h
  | cons c t =>
    by_cases h0 : c = '0'
    · subst h0
      simp [pIntPart] at h
      obtain ⟨h1, h2⟩ := h
      subst h2
      exact ⟨['0'], rfl, by intro x hx; simp at hx; subst hx; decide⟩
    · by_cases hd : isDigitChar c = true
      · simp only [pIntPart, if_neg h0, if_pos hd, Option.some.injEq, Prod.mk.injEq] at h
        obtain ⟨hdig, hinert⟩ := takeWhile_digit_split (c :: t)
        refine ⟨(c :: t).takeWhile isDigitChar, ?_, hinert⟩
        rw [← h.2]
        exact hdig
      · simp [pIntPart, h0, hd] at h

theorem pFracPart_split (cs : Str) (q : ℚ) (rest : Str) (h : pFracPart cs = some (q, rest)) :
    ∃ u, cs = u ++ rest ∧ ∀ c ∈ u, inertChar c = true := by
  cases cs with
  | nil =>
    simp [pFracPart] at h
    obtain ⟨h1, h2⟩ := h
    subst h2
    exact ⟨[], rfl, by simp⟩
  | cons c t =>
    by_cases hdot : c = '.'
    · subst hdot
      by_cases hz : t.takeWhile isDigitChar = []
      · simp [pFracPart, hz] at h
      · simp [pFracPart, hz] at h
        obtain ⟨hdig, hinert⟩ := takeWhile_digit_split t
        obtain ⟨h1, h2⟩ := h
        subst h2
        refine ⟨'.' :: t.takeWhile isDigitChar, ?_, ?_⟩
        · exact congrArg ('.' :: ·) hdig
        · intro x hx
          rcases List.mem_cons.mp hx with rfl | hx
          · decide
          · exact hinert x hx
    · simp [pFracPart, hdot] at h
      obtain ⟨h1, h2⟩ := h
      subst h2
      exact ⟨[], rfl, by simp⟩

theorem pExpDigits_split (sgn : ℤ) (t : Str) (e : ℤ) (rest : Str)
    (h : pExpDigits sgn t = some (e, rest)) :
    ∃ u, t = u ++ rest ∧ ∀ c ∈ u, inertChar c = true := by
  unfold pExpDigits at h
  split_ifs at h with hz
  simp only [Option.some.injEq, Prod.mk.injEq] at h
  obtain ⟨hdig, hinert⟩ := takeWhile_digit_split t
  obtain ⟨h1, h2⟩ := h
  subst h2
  exact ⟨t.takeWhile isDigitChar, hdig, hinert⟩

theorem pExpPart_split (cs : Str) (e : ℤ) (rest : Str) (h : pExpPart cs = some (e, rest)) :
    ∃ u, cs = u ++ rest ∧ ∀ c ∈ u, inertChar c = true := by
  cases cs with
  | nil =>
    simp [pExpPart] at h
    obtain ⟨h1, h2⟩ := h
    subst h2
    exact ⟨[], rfl, by simp⟩
  | cons c t =>
    by_cases he : (c = 'e' || c = 'E') = true
    · have hce : c ≠ '"' ∧ c ≠ '\\' ∧ inertChar c = true := by
        simp only [Bool.or_eq_true, decide_eq_true_eq] at he
        rcases he with rfl | rfl <;> exact ⟨by decide, by decide, by decide⟩
      rw [pExpPart.eq_def] at h
      simp only [he, if_true] at h
      cases t with
      | nil =>
        obtain ⟨u, hu, hin⟩ := pExpDigits_split 1 [] e rest h
        refine ⟨c :: u, ?_, ?_⟩
        · rw [List.cons_append, ← hu]
        · intro x hx
          rcases List.mem_cons.mp hx with rfl | hx
          · exact hce.2.2
          · exact hin x hx
      | cons c2 t2 =>
        by_cases hm : c2 = '-'
        · subst hm
          simp only [if_pos rfl] at h
          obtain ⟨u, hu, hin⟩ := pExpDigits_split (-1) t2 e rest h
          refine ⟨c :: '-' :: u, ?_, ?_⟩
          · simp [hu]
          · intro x hx
            rcases List.mem_cons.mp hx with rfl | hx
            · exact hce.2.2
            · rcases List.mem_cons.mp hx with rfl | hx
              · decide
              · exact hin x hx
        · by_cases hp : c2 = '+'
          · subst hp
            simp only [if_neg hm, if_pos rfl] at h
            obtain ⟨u, hu, hin⟩ := pExpDigits_split 1 t2 e rest h
            refine ⟨c :: '+' :: u, ?_, ?_⟩
            · simp [hu]
            · intro x hx
              rcases List.mem_cons.mp hx with rfl | hx
              · exact hce.2.2
              · rcases List.mem_cons.mp hx with rfl | hx
                · decide
                · exact hin x hx
          · simp only [if_neg hm, if_neg hp] at h
            obtain ⟨u, hu, hin⟩ := pExpDigits_split 1 (c2 :: t2) e rest h
            refine ⟨c :: u, ?_, ?_⟩
            · rw [List.cons_append, ← hu]
            · intro x hx
              rcases List.mem_cons.mp hx with rfl | hx
              · exact hce.2.2
              · exact hin x hx
    · rw [pExpPart.eq_def] at h
      simp only [Bool.not_eq_true] at he
      simp only [he, Bool.false_eq_true, if_false, Option.some.injEq, Prod.mk.injEq] at h
      obtain ⟨h1, h2⟩ := h
      subst h2
      exact ⟨[], rfl, by simp⟩

theorem pNumMag_split (neg : Bool) (cs1 : Str) (q : ℚ) (rest : Str)
    (h : pNumMag neg cs1 = some (q, rest)) :
    ∃ u, cs1 = u ++ rest ∧ ∀ c ∈ u, inertChar c = true := by
  unfold pNumMag at h
  cases hi : pIntPart cs1 with
  | none => rw [hi] at h; cases h
  | some p1 =>
    obtain ⟨ip, r1⟩ := p1
    rw [hi] at h
    dsimp only at h
    cases hf : pFracPart r1 with
    | none => rw [hf] at h; cases h
    | some p2 =>
      obtain ⟨fp, r2⟩ := p2
      rw [hf] at h
      dsimp only at h
      cases hel : pExpPart r2 with
      | none => rw [hel] at h; cases h
      | some p3 =>
        obtain ⟨ev, r3⟩ := p3
        rw [hel] at h
        dsimp only at h
        simp only [Option.some.injEq, Prod.mk.injEq] at h
        obtain ⟨u1, hu1, hi1⟩ := pIntPart_split cs1 ip r1 hi
        obtain ⟨u2, hu2, hi2⟩ := pFracPart_split r1 fp r2 hf
        obtain ⟨u3, hu3, hi3⟩ := pExpPart_split r2 ev r3 hel
        refine ⟨u1 ++ u2 ++ u3, ?_, ?_⟩
        · rw [← h.2, hu1, hu2, hu3]
          simp [List.append_assoc]
        · intro x hx
          simp only [List.mem_append] at hx
          rcases hx with (hx | hx) | hx
          · exact hi1 x hx
          · exact hi2 x hx
          · exact hi3 x hx

theorem pNumber_split (cs : Str) (q : ℚ) (rest : Str) (h : pNumber cs = some (q, rest)) :
    ∃ u, cs = u ++ rest ∧ ∀ c ∈ u, inertChar c = true := by
  cases cs with
  | nil =>
    simp only [pNumber] at h
    exact pNumMag_split false [] q rest h
  | cons c t =>
    by_cases hm : c = '-'
    · subst hm
      simp only [pNumber] at h
      obtain ⟨u, hu, hin⟩ := pNumMag_split true t q rest h
      refine ⟨'-' :: u, by simp [hu], ?_⟩
      intro x hx
      rcases List.mem_cons.mp hx with rfl | hx
      · decide
      · exact hin x hx
    · rw [pNumber.eq_def] at h
      split at h
      · rename_i t2 heq
        injection heq with hc ht
        exact absurd hc hm
      · exact pNumMag_split false (c :: t) q rest h


theorem mrun_from_one_brace (a : Str) :
    mrun ⟨false, false, 1, 0⟩ a =
      ⟨(mrun neutralSt a).esc, (mrun neutralSt a).ins,
        (mrun neutralSt a).d1 + 1, (mrun neutralSt a).d2⟩ := by
  have h1 := mrun_shift a neutralSt 1 0
  simp only [neutralSt] at h1
  simpa using h1

theorem mrun_from_one_brack (a : Str) :
    mrun ⟨false, false, 0, 1⟩ a =
      ⟨(mrun neutralSt a).esc, (mrun neutralSt a).ins,
        (mrun neutralSt a).d1, (mrun neutralSt a).d2 + 1⟩ := by
  have h1 := mrun_shift a neutralSt 0 1
  simp only [neutralSt] at h1
  simpa using h1

theorem seg_wrap_brace {m : Str} (hm : Seg m) : Seg ('\x7b' :: (m ++ ['\x7d'])) := by
  obtain ⟨hr, hp⟩ := hm
  have hop : mstep neutralSt '\x7b' = ⟨false, false, 1, 0⟩ := rfl
  have hm1 : mrun ⟨false, false, 1, 0⟩ m = ⟨false, false, 1, 0⟩ := by
    rw [mrun_from_one_brace, hr]
    rfl
  constructor
  · rw [mrun_cons, hop, mrun_append, hm1]
    rfl
  · intro a b hab
    cases a with
    | nil => exact ⟨le_refl 0, le_refl 0⟩
    | cons x a' =>
      injection hab with hx ha
      subst hx
      rw [mrun_cons, hop]
      rcases List.append_eq_append_iff.mp ha with ⟨w, hw1, hw2⟩ | ⟨w, hw1, hw2⟩
      · -- here a' = m ++ w and ['\x7d'] = w ++ b
        cases w with
        | nil =>
          simp only [List.append_nil] at hw1
          subst hw1
          rw [hm1]
          exact ⟨by norm_num, le_refl 0⟩
        | cons y w' =>
          injection hw2 with hy hw'
          subst hy
          have hw0 : w' = [] := (List.append_eq_nil.mp hw'.symm).1
          subst hw0
          subst hw1
          rw [mrun_append, hm1]
          exact ⟨le_refl 0, le_refl 0⟩
      · -- here m = a' ++ w (a' is a proper prefix of m)
        rw [mrun_from_one_brace]
        obtain ⟨hb1, hb2⟩ := hp a' w hw1
        constructor
        · simp only []
          omega
        · simpa using hb2

theorem seg_wrap_brack {m : Str} (hm : Seg m) : Seg ('[' :: (m ++ [']'])) := by
  obtain ⟨hr, hp⟩ := hm
  have hop : mstep neutralSt '[' = ⟨false, false, 0, 1⟩ := rfl
  have hm1 : mrun ⟨false, false, 0, 1⟩ m = ⟨false, false, 0, 1⟩ := by
    rw [mrun_from_one_brack, hr]
    rfl
  constructor
  · rw [mrun_cons, hop, mrun_append, hm1]
    rfl
  · intro a b hab
    cases a with
    | nil => exact ⟨le_refl 0, le_refl 0⟩
    | cons x a' =>
      injection hab with hx ha
      subst hx
      rw [mrun_cons, hop]
      rcases List.append_eq_append_iff.mp ha with ⟨w, hw1, hw2⟩ | ⟨w, hw1, hw2⟩
      · cases w with
        | nil =>
          simp only [List.append_nil] at hw1
          subst hw1
          rw [hm1]
          exact ⟨le_refl 0, by norm_num⟩
        | cons y w' =>
          injection hw2 with hy hw'
          subst hy
          have hw0 : w' = [] := (List.append_eq_nil.mp hw'.symm).1
          subst hw0
          subst hw1
          rw [mrun_append, hm1]
          exact ⟨le_refl 0, le_refl 0⟩
      · rw [mrun_from_one_brack]
        obtain ⟨hb1, hb2⟩ := hp a' w hw1
        constructor
        · simpa using hb1
        · simp only []
          omega


/-- What `pAny` consumes, per mode: always a `Seg`, and for a value the
outermost shape is recorded (an object is `{` body `}`, an array `[` body `]`,
each with a `Seg` body). -/
def SplitSpec : PMode → Str → JVal → Str → Prop
  | .value, cs, v, rest =>
      ∃ u, cs = u ++ rest ∧ Seg u ∧
        (∀ l, v = JVal.obj l → ∃ m, u = '\x7b' :: (m ++ ['\x7d']) ∧ Seg m) ∧
        (∀ l, v = JVal.arr l → ∃ m, u = '[' :: (m ++ [']']) ∧ Seg m)
  | .members acc, cs, v, rest =>
      (∃ l, v = JVal.obj l) ∧ ∃ m, cs = m ++ '\x7d' :: rest ∧ Seg m
  | .elements acc, cs, v, rest =>
      (∃ l, v = JVal.arr l) ∧ ∃ m, cs = m ++ ']' :: rest ∧ Seg m
  | .element, cs, v, rest => ∃ u, cs = u ++ rest ∧ Seg u

theorem seg_colon : Seg [':'] := seg_of_inert _ (by decide)

theorem seg_comma : Seg [','] := seg_of_inert _ (by decide)

theorem pAny_split : ∀ f mode cs v rest, pAny f mode cs = some (v, rest) →
    SplitSpec mode cs v rest := by
  intro f
  induction f with
  | zero =>
    intro mode cs v rest h
    rw [pAny.eq_def] at h
    simp at h
  | succ f ih =>
    intro mode cs v rest h
    cases mode with
    | element =>
      rw [pAny.eq_def] at h
      dsimp only at h
      cases hv1 : pAny f .value (skipWs cs) with
      | none => rw [hv1] at h; simp at h
      | some vr =>
        obtain ⟨v1, r⟩ := vr
        rw [hv1] at h
        dsimp only at h
        simp only [Option.some.injEq, Prod.mk.injEq] at h
        obtain ⟨hv, hr⟩ := h
        obtain ⟨u, hu, hsegu, _, _⟩ := ih .value (skipWs cs) v1 r hv1
        obtain ⟨w1, hw1, hws1⟩ := skipWs_split cs
        obtain ⟨w2, hw2, hws2⟩ := skipWs_split r
        refine ⟨w1 ++ u ++ w2, ?_, ?_⟩
        · rw [← hr]
          conv_lhs => rw [hw1, hu, hw2]
          simp [List.append_assoc]
        · exact Seg.append (Seg.append (seg_of_ws hws1) hsegu) (seg_of_ws hws2)
    | elements acc =>
      rw [pAny.eq_def] at h
      dsimp only at h
      cases hel : pAny f .element cs with
      | none => rw [hel] at h; simp at h
      | some vr =>
        obtain ⟨v4, r⟩ := vr
        rw [hel] at h
        dsimp only at h
        obtain ⟨u, hu, hsegu⟩ := ih .element cs v4 r hel
        split at h
        · -- r is ',' followed by more elements
          rename_i r2
          obtain ⟨hva, m', hm', hsegm'⟩ := ih (.elements (acc ++ [v4])) r2 v rest h
          refine ⟨hva, u ++ ',' :: m', ?_, ?_⟩
          · conv_lhs => rw [hu, hm']
            simp
          · exact Seg.append hsegu (Seg.append seg_comma hsegm')
        · -- r is ']' and the array closes
          rename_i r2
          simp only [Option.some.injEq, Prod.mk.injEq] at h
          obtain ⟨hv, hr⟩ := h
          refine ⟨⟨acc ++ [v4], hv.symm⟩, u, ?_, hsegu⟩
          rw [hu, hr]
        · simp at h
    | members acc =>
      cases cs with
      | nil =>
        rw [pAny.eq_def] at h
        simp at h
      | cons c t =>
        by_cases hq : c = '"'
        · subst hq
          rw [pAny.eq_def] at h
          dsimp only at h
          split at h
          case _ t2 heq =>
           injection heq with hc2 ht2
           subst ht2
           cases hsb : pStrBody t with
           | none => rw [hsb] at h; simp at h
           | some kv =>
             obtain ⟨k, r1⟩ := kv
             rw [hsb] at h
             dsimp only at h
             split at h
             · rename_i r3 hr3
               cases hel : pAny f .element r3 with
               | none => rw [hel] at h; simp at h
               | some vr =>
                 obtain ⟨v4, r4⟩ := vr
                 rw [hel] at h
                 dsimp only at h
                 obtain ⟨u1, hu1, hst1⟩ := pStrBody_split t k r1 hsb
                 have hseg1 : Seg ('"' :: u1) := seg_of_strTail hst1
                 obtain ⟨w1, hw1, hws1⟩ := skipWs_split r1
                 obtain ⟨u2, hu2, hseg2⟩ := ih .element r3 v4 r4 hel
                 split at h
                 · -- the member is followed by a comma
                   rename_i r5
                   obtain ⟨w2, hw2, hws2⟩ := skipWs_split r5
                   obtain ⟨hvo, m', hm', hsegm'⟩ :=
                     ih (.members (acc ++ [(k, v4)])) (skipWs r5) v rest h
                   refine ⟨hvo, ('"' :: u1) ++ (w1 ++ (':' :: (u2 ++ (',' :: (w2 ++ m'))))), ?_, ?_⟩
                   · conv_lhs => rw [hu1, hw1, hr3, hu2, hw2, hm']
                     simp
                   · refine Seg.append hseg1 (Seg.append (seg_of_ws hws1)
                       (Seg.append seg_colon (Seg.append hseg2
                         (Seg.append seg_comma (Seg.append (seg_of_ws hws2) hsegm')))))
                 · -- the member is followed by the closing brace
                   rename_i r5
                   simp only [Option.some.injEq, Prod.mk.injEq] at h
                   obtain ⟨hv, hr⟩ := h
                   refine ⟨⟨acc ++ [(k, v4)], hv.symm⟩, ('"' :: u1) ++ (w1 ++ (':' :: u2)), ?_, ?_⟩
                   · conv_lhs => rw [hu1, hw1, hr3, hu2]
                     rw [hr]
                     simp
                   · exact Seg.append hseg1 (Seg.append (seg_of_ws hws1)
                       (Seg.append seg_colon hseg2))
                 · simp at h
             · rename_i hnp
               simp at h
          case _ =>
           simp at h
        · rw [pAny.eq_def] at h
          dsimp only at h
          split at h
          · rename_i t2 heq
            injection heq with hc ht
            exact absurd hc hq
          · simp at h
    | value =>
      cases cs with
      | nil =>
        rw [pAny.eq_def] at h
        simp at h
      | cons c t =>
        rw [pAny.eq_def] at h
        dsimp only at h
        split_ifs at h with h1 h2 h3 h4 h5 h6 h7 h8 h9
        · -- object
          subst h1
          obtain ⟨w, hw, hws⟩ := skipWs_split t
          split at h
          · rename_i r heq
            simp only [Option.some.injEq, Prod.mk.injEq] at h
            obtain ⟨hv, hr⟩ := h
            refine ⟨'\x7b' :: (w ++ ['\x7d']), ?_, seg_wrap_brace (seg_of_ws hws), ?_, ?_⟩
            · conv_lhs => rw [hw, heq]
              rw [hr]
              simp
            · intro l hl
              exact ⟨w, rfl, seg_of_ws hws⟩
            · intro l hl
              rw [← hv] at hl
              cases hl
          · rename_i rx hno
            obtain ⟨⟨lv, hlv⟩, m, hm, hsegm⟩ := ih (.members []) (skipWs t) v rest h
            refine ⟨'\x7b' :: ((w ++ m) ++ ['\x7d']), ?_, seg_wrap_brace (Seg.append (seg_of_ws hws) hsegm), ?_, ?_⟩
            · conv_lhs => rw [hw, hm]
              simp
            · intro l hl
              exact ⟨w ++ m, rfl, Seg.append (seg_of_ws hws) hsegm⟩
            · intro l hl
              rw [hlv] at hl
              cases hl
        · -- array
          subst h2
          obtain ⟨w, hw, hws⟩ := skipWs_split t
          split at h
          · rename_i r heq
            simp only [Option.some.injEq, Prod.mk.injEq] at h
            obtain ⟨hv, hr⟩ := h
            refine ⟨'[' :: (w ++ [']']), ?_, seg_wrap_brack (seg_of_ws hws), ?_, ?_⟩
            · conv_lhs => rw [hw, heq]
              rw [hr]
              simp
            · intro l hl
              rw [← hv] at hl
              cases hl
            · intro l hl
              exact ⟨w, rfl, seg_of_ws hws⟩
          · rename_i rx hno
            obtain ⟨⟨lv, hlv⟩, m, hm, hsegm⟩ := ih (.elements []) (skipWs t) v rest h
            refine ⟨'[' :: ((w ++ m) ++ [']']), ?_, seg_wrap_brack (Seg.append (seg_of_ws hws) hsegm), ?_, ?_⟩
            · conv_lhs => rw [hw, hm]
              simp
            · intro l hl
              rw [hlv] at hl
              cases hl
            · intro l hl
              exact ⟨w ++ m, rfl, Seg.append (seg_of_ws hws) hsegm⟩
        · -- string
          subst h3
          split at h
          · rename_i v1 r hsb
            simp only [Option.some.injEq, Prod.mk.injEq] at h
            obtain ⟨hv, hr⟩ := h
            obtain ⟨u1, hu1, hst1⟩ := pStrBody_split t v1 r hsb
            refine ⟨'"' :: u1, ?_, seg_of_strTail hst1, ?_, ?_⟩
            · conv_lhs => rw [hu1]
              rw [hr]
              simp
            · intro l hl
              rw [← hv] at hl
              cases hl
            · intro l hl
              rw [← hv] at hl
              cases hl
          · simp at h
        · -- true
          subst h4
          split at h
          · rename_i r hlit
            simp only [Option.some.injEq, Prod.mk.injEq] at h
            obtain ⟨hv, hr⟩ := h
            refine ⟨'t' :: "rue".data, ?_, seg_of_inert _ (by decide), ?_, ?_⟩
            · conv_lhs => rw [litP_split _ _ _ hlit]
              rw [hr]
              simp
            · intro l hl
              rw [← hv] at hl
              cases hl
            · intro l hl
              rw [← hv] at hl
              cases hl
          · simp at h
        · -- false
          subst h5
          split at h
          · rename_i r hlit
            simp only [Option.some.injEq, Prod.mk.injEq] at h
            obtain ⟨hv, hr⟩ := h
            refine ⟨'f' :: "alse".data, ?_, seg_of_inert _ (by decide), ?_, ?_⟩
            · conv_lhs => rw [litP_split _ _ _ hlit]
              rw [hr]
              simp
            · intro l hl
              rw [← hv] at hl
              cases hl
            · intro l hl
              rw [← hv] at hl
              cases hl
          · simp at h
        · -- null
          subst h6
          split at h
          · rename_i r hlit
            simp only [Option.some.injEq, Prod.mk.injEq] at h
            obtain ⟨hv, hr⟩ := h
            refine ⟨'n' :: "ull".data, ?_, seg_of_inert _ (by decide), ?_, ?_⟩
            · conv_lhs => rw [litP_split _ _ _ hlit]
              rw [hr]
              simp
            · intro l hl
              rw [← hv] at hl
              cases hl
            · intro l hl
              rw [← hv] at hl
              cases hl
          · simp at h
        · -- NaN
          subst h7
          split at h
          · rename_i r hlit
            simp only [Option.some.injEq, Prod.mk.injEq] at h
            obtain ⟨hv, hr⟩ := h
            refine ⟨'N' :: "aN".data, ?_, seg_of_inert _ (by decide), ?_, ?_⟩
            · conv_lhs => rw [litP_split _ _ _ hlit]
              rw [hr]
              simp
            · intro l hl
              rw [← hv] at hl
              cases hl
            · intro l hl
              rw [← hv] at hl
              cases hl
          · simp at h
        · -- Infinity
          subst h8
          split at h
          · rename_i r hlit
            simp only [Option.some.injEq, Prod.mk.injEq] at h
            obtain ⟨hv, hr⟩ := h
            refine ⟨'I' :: "nfinity".data, ?_, seg_of_inert _ (by decide), ?_, ?_⟩
            · conv_lhs => rw [litP_split _ _ _ hlit]
              rw [hr]
              simp
            · intro l hl
              rw [← hv] at hl
              cases hl
            · intro l hl
              rw [← hv] at hl
              cases hl
          · simp at h
        · -- minus: a number or -Infinity
          subst h9
          split at h
          · rename_i q r hnum
            simp only [Option.some.injEq, Prod.mk.injEq] at h
            obtain ⟨hv, hr⟩ := h
            obtain ⟨u, hu, hin⟩ := pNumber_split ('-' :: t) q r hnum
            refine ⟨u, ?_, seg_of_inert _ hin, ?_, ?_⟩
            · conv_lhs => rw [hu]
              rw [hr]
            · intro l hl
              rw [← hv] at hl
              cases hl
            · intro l hl
              rw [← hv] at hl
              cases hl
          · rename_i hnum
            split at h
            · rename_i r hlit
              simp only [Option.some.injEq, Prod.mk.injEq] at h
              obtain ⟨hv, hr⟩ := h
              refine ⟨'-' :: "Infinity".data, ?_, seg_of_inert _ (by decide), ?_, ?_⟩
              · conv_lhs => rw [litP_split _ _ _ hlit]
                rw [hr]
                simp
              · intro l hl
                rw [← hv] at hl
                cases hl
              · intro l hl
                rw [← hv] at hl
                cases hl
            · simp at h
        · -- a plain number
          split at h
          · rename_i q r hnum
            simp only [Option.some.injEq, Prod.mk.injEq] at h
            obtain ⟨hv, hr⟩ := h
            obtain ⟨u, hu, hin⟩ := pNumber_split (c :: t) q r hnum
            refine ⟨u, ?_, seg_of_inert _ hin, ?_, ?_⟩
            · conv_lhs => rw [hu]
              rw [hr]
            · intro l hl
              rw [← hv] at hl
              cases hl
            · intro l hl
              rw [← hv] at hl
              cases hl
          · simp at h

/-- Characters that leave phase 1 of the scan completely untouched. -/
def cleanChar (c : Char) : Bool := !(c = '\x7b' || c = '[' || c = '"' || c = '\\')

theorem clean_spec {c : Char} (h : cleanChar c = true) :
    c ≠ '\x7b' ∧ c ≠ '[' ∧ c ≠ '"' ∧ c ≠ '\\' := by
  simp only [cleanChar, Bool.not_or, Bool.and_eq_true, Bool.not_eq_true',
    decide_eq_false_iff_not] at h
  exact ⟨h.1.1.1, h.1.1.2, h.1.2, h.2⟩

theorem scanFind_skip (p : Str) (hp : ∀ c ∈ p, cleanChar c = true) (rest : Str) :
    ∀ i, scanFind ⟨false, false, 0, 0⟩ (p ++ rest) i =
      scanFind ⟨false, false, 0, 0⟩ rest (i + p.length) := by
  induction p with
  | nil => intro i; simp
  | cons c p2 ihp =>
    intro i
    obtain ⟨hc1, hc2, hc3, hc4⟩ := clean_spec (hp c (by simp))
    rw [List.cons_append, scanFind.eq_def]
    dsimp only
    rw [if_neg (by simp), if_neg hc4, if_neg hc3, if_neg (by simp), if_neg hc1, if_neg hc2]
    rw [ihp (fun x hx => hp x (by simp [hx])) (i + 1)]
    congr 1
    simp [Nat.add_comm, Nat.add_assoc]
    omega

theorem scanEnd_append (ob : Bool) (u : Str) :
    ∀ (s : MSt) (t : Str) (i : Nat),
      (∀ a ch b, u = a ++ ch :: b →
        ¬(dOf ob (mrun s a) = 1 ∧ dOf ob (mrun s (a ++ [ch])) = 0)) →
      scanEnd ob s (u ++ t) i = scanEnd ob (mrun s u) t (i + u.length) := by
  induction u with
  | nil =>
    intro s t i hns
    simp [mrun_nil]
  | cons ch u2 ihu =>
    intro s t i hns
    have hstop : ¬(dOf ob s = 1 ∧ dOf ob (mstep s ch) = 0) := by
      have h0 := hns [] ch u2 rfl
      simpa [mrun_nil, mrun_cons] using h0
    rw [List.cons_append, scanEnd.eq_def]
    dsimp only
    rw [if_neg hstop]
    rw [ihu (mstep s ch) t (i + 1) ?_]
    · rw [mrun_cons]
      congr 1
      simp
      omega
    · intro a ch2 b hab
      have h1 := hns (ch :: a) ch2 b (by rw [List.cons_append, hab])
      simpa [mrun_cons] using h1

theorem scanEnd_close_brace (m : Str) (hm : Seg m) (t : Str) (i : Nat) :
    scanEnd true ⟨false, false, 1, 0⟩ (m ++ '\x7d' :: t) i = some (i + m.length + 1) := by
  have hns : ∀ a ch b, m = a ++ ch :: b →
      ¬(dOf true (mrun ⟨false, false, 1, 0⟩ a) = 1 ∧
        dOf true (mrun ⟨false, false, 1, 0⟩ (a ++ [ch])) = 0) := by
    intro a ch b hab hcon
    have hpre := hm.2 (a ++ [ch]) b (by rw [hab]; simp)
    have h2 := hcon.2
    rw [mrun_from_one_brace (a ++ [ch])] at h2
    simp [dOf] at h2
    have h3 := hpre.1
    omega
  rw [scanEnd_append true m ⟨false, false, 1, 0⟩ ('\x7d' :: t) i hns]
  have hrun : mrun ⟨false, false, 1, 0⟩ m = ⟨false, false, 1, 0⟩ := by
    rw [mrun_from_one_brace, hm.1]
    rfl
  rw [hrun, scanEnd.eq_def]
  dsimp only
  rw [if_pos (by constructor <;> rfl)]

theorem scanEnd_close_brack (m : Str) (hm : Seg m) (t : Str) (i : Nat) :
    scanEnd false ⟨false, false, 0, 1⟩ (m ++ ']' :: t) i = some (i + m.length + 1) := by
  have hns : ∀ a ch b, m = a ++ ch :: b →
      ¬(dOf false (mrun ⟨false, false, 0, 1⟩ a) = 1 ∧
        dOf false (mrun ⟨false, false, 0, 1⟩ (a ++ [ch])) = 0) := by
    intro a ch b hab hcon
    have hpre := hm.2 (a ++ [ch]) b (by rw [hab]; simp)
    have h2 := hcon.2
    rw [mrun_from_one_brack (a ++ [ch])] at h2
    simp [dOf] at h2
    have h3 := hpre.2
    omega
  rw [scanEnd_append false m ⟨false, false, 0, 1⟩ (']' :: t) i hns]
  have hrun : mrun ⟨false, false, 0, 1⟩ m = ⟨false, false, 0, 1⟩ := by
    rw [mrun_from_one_brack, hm.1]
    rfl
  rw [hrun, scanEnd.eq_def]
  dsimp only
  rw [if_pos (by constructor <;> rfl)]


/-- `r` occurs as a contiguous substring of `cs`. -/
def IsSubstring (r cs : Str) : Prop := ∃ a b, cs = a ++ r ++ b

theorem isSub_cons {r t : Str} (c : Char) (h : IsSubstring r t) : IsSubstring r (c :: t) := by
  obtain ⟨a, b, hab⟩ := h
  exact ⟨c :: a, b, by rw [hab]; simp⟩

theorem drop_take_isSub (cs : Str) (a n : Nat) : IsSubstring ((cs.drop a).take n) cs := by
  refine ⟨cs.take a, (cs.drop a).drop n, ?_⟩
  calc cs = cs.take a ++ cs.drop a := (List.take_append_drop a cs).symm
    _ = cs.take a ++ (cs.drop a).take n ++ (cs.drop a).drop n := by
        conv_lhs => rw [← List.take_append_drop n (cs.drop a)]
        rw [List.append_assoc]

/-- Whether `pat` occurs as a contiguous subsequence (Python `in` / `re` search). -/
def containsSeq (pat : Str) : Str → Bool
  | [] => pat.isPrefixOf []
  | c :: t => pat.isPrefixOf (c :: t) || containsSeq pat t

theorem fenceSearch_none {cs : Str} (h : containsSeq fenceMarker cs = false) :
    fenceSearch cs = none := by
  induction cs with
  | nil => rfl
  | cons c t ih =>
    rw [containsSeq] at h
    simp only [Bool.or_eq_false_iff] at h
    rw [fenceSearch.eq_def]
    dsimp only
    rw [if_neg (by simp [h.1])]
    exact ih h.2

theorem dropTrailWs_pref (u : Str) : ∃ w, u = dropTrailWs u ++ w := by
  refine ⟨(u.reverse.takeWhile isWsChar).reverse, ?_⟩
  unfold dropTrailWs
  rw [← List.reverse_append, List.takeWhile_append_dropWhile, List.reverse_reverse]

theorem takeUntilTicks_pref : ∀ cs u, takeUntilTicks cs = some u → ∃ w, cs = u ++ w := by
  intro cs
  induction cs with
  | nil => intro u h; cases h
  | cons c t ih =>
    intro u h
    rw [takeUntilTicks.eq_def] at h
    dsimp only at h
    split_ifs at h with hp
    · injection h with h1
      exact ⟨c :: t, by rw [← h1]; rfl⟩
    · split at h
      · rename_i u2 hu2
        injection h with h1
        obtain ⟨w, hw⟩ := ih u2 hu2
        exact ⟨w, by rw [← h1, List.cons_append, ← hw]⟩
      · cases h

theorem fenceSearch_sub : ∀ cs inner, fenceSearch cs = some inner → IsSubstring inner cs := by
  intro cs
  induction cs with
  | nil => intro inner h; cases h
  | cons c t ih =>
    intro inner h
    rw [fenceSearch.eq_def] at h
    dsimp only at h
    split_ifs at h with hp
    · split at h
      · rename_i bt hbt
        injection h with h1
        obtain ⟨w1, hw1⟩ := dropTrailWs_pref bt
        obtain ⟨w2, hw2⟩ := takeUntilTicks_pref _ bt hbt
        refine ⟨(c :: t).take 7 ++ ((c :: t).drop 7).takeWhile isWsChar, w1 ++ w2, ?_⟩
        conv_lhs => rw [← List.take_append_drop 7 (c :: t)]
        conv_lhs =>
          rw [← List.takeWhile_append_dropWhile isWsChar ((c :: t).drop 7)]
        rw [hw2, hw1, h1]
        simp [List.append_assoc]
      · exact isSub_cons c (ih inner h)
    · exact isSub_cons c (ih inner h)


theorem scannerPath_sound (cs r : Str) (h : scannerPath cs = some r) :
    IsSubstring r cs ∧ jloads r = true := by
  unfold scannerPath at h
  cases hf : scanFind ⟨false, false, 0, 0⟩ cs 0 with
  | none => rw [hf] at h; cases h
  | some pr =>
    obtain ⟨ob, start⟩ := pr
    rw [hf] at h
    dsimp only at h
    cases he : scanEnd ob (initSt ob) (cs.drop (start + 1)) (start + 1) with
    | none => rw [he] at h; cases h
    | some stop =>
      rw [he] at h
      dsimp only at h
      split_ifs at h with hj
      injection h with h1
      subst h1
      exact ⟨drop_take_isSub cs start (stop - start), hj⟩

theorem extract_sound (cs r : Str) (h : extract_json_from_response cs = some r) :
    IsSubstring r cs ∧ jloads r = true := by
  unfold extract_json_from_response at h
  split at h
  · rename_i inner hfs
    split_ifs at h with hj
    · injection h with h1
      subst h1
      exact ⟨fenceSearch_sub cs inner hfs, hj⟩
    · exact scannerPath_sound cs r h
  · exact scannerPath_sound cs r h

/-- Bounded check of a predicate over every contiguous substring. -/
def anyContig (p : Str → Bool) (cs : Str) : Bool :=
  (List.range (cs.length + 1)).any fun i =>
    (List.range (cs.length + 1)).any fun n => p ((cs.drop i).take n)

theorem anyContig_false {p : Str → Bool} {cs : Str} (h : anyContig p cs = false) :
    ∀ u, IsSubstring u cs → p u = false := by
  intro u hsub
  obtain ⟨a, b, hab⟩ := hsub
  have hu : u = (cs.drop a.length).take u.length := by
    rw [hab, List.append_assoc, List.drop_left, List.take_left]
  have hlen : cs.length = a.length + u.length + b.length := by
    rw [hab]
    simp only [List.length_append]
  by_contra hcon
  have hpu : p u = true := by
    revert hcon
    cases hp2 : p u <;> simp
  have htrue : anyContig p cs = true := by
    unfold anyContig
    rw [List.any_eq_true]
    refine ⟨a.length, List.mem_range.mpr (by omega), ?_⟩
    rw [List.any_eq_true]
    refine ⟨u.length, List.mem_range.mpr (by omega), ?_⟩
    rw [← hu]
    exact hpu
  rw [h] at htrue
  cases htrue

/-- The central span-extraction lemma: a well-formed JSON object or array `j`,
preceded by prose containing none of the four scanner-active characters and
with no ` ```json ` fence marker anywhere, is returned exactly, whatever
follows it. -/
theorem extract_embedded (p j sfx : Str) (v : JVal)
    (hp : ∀ c ∈ p, cleanChar c = true)
    (hfence : containsSeq fenceMarker (p ++ (j ++ sfx)) = false)
    (hv : pValue (jparseFuel j) j = some (v, []))
    (hshape : (∃ l, v = JVal.obj l) ∨ (∃ l, v = JVal.arr l)) :
    extract_json_from_response (p ++ (j ++ sfx)) = some j := by
  obtain ⟨u, hu, hsegu, hobj, harr⟩ := pAny_split (jparseFuel j) .value j v [] hv
  rw [List.append_nil] at hu
  have hjl : jloads j = true := by
    have hsk : skipWs j = j := by
      rcases hshape with ⟨l, hl⟩ | ⟨l, hl⟩
      · obtain ⟨m, hm, _⟩ := hobj l hl
        rw [hu, hm, skipWs, if_neg (by decide)]
      · obtain ⟨m, hm, _⟩ := harr l hl
        rw [hu, hm, skipWs, if_neg (by decide)]
    unfold jloads jparse
    rw [hsk, hv]
    simp [skipWs]
  unfold extract_json_from_response
  rw [fenceSearch_none hfence]
  dsimp only
  unfold scannerPath
  rcases hshape with ⟨l, hl⟩ | ⟨l, hl⟩
  · obtain ⟨m, hm, hsegm⟩ := hobj l hl
    rw [← hu] at hm
    have hfind : scanFind ⟨false, false, 0, 0⟩ (p ++ (j ++ sfx)) 0 = some (true, p.length) := by
      rw [scanFind_skip p hp (j ++ sfx) 0, hm]
      simp [scanFind]
    rw [hfind]
    dsimp only
    have hdrop : (p ++ (j ++ sfx)).drop (p.length + 1) = m ++ ('\x7d' :: sfx) := by
      rw [hm]
      have : p ++ ('\x7b' :: (m ++ ['\x7d']) ++ sfx) = (p ++ ['\x7b']) ++ (m ++ ('\x7d' :: sfx)) := by
        simp
      rw [this]
      have hl2 : p.length + 1 = (p ++ ['\x7b']).length := by simp
      rw [hl2, List.drop_left]
    have hend : scanEnd true (initSt true) ((p ++ (j ++ sfx)).drop (p.length + 1)) (p.length + 1)
        = some (p.length + 1 + m.length + 1) := by
      rw [hdrop]
      have : initSt true = ⟨false, false, 1, 0⟩ := by simp [initSt]
      rw [this]
      exact scanEnd_close_brace m hsegm sfx (p.length + 1)
    rw [hend]
    dsimp only
    have hcand : ((p ++ (j ++ sfx)).drop p.length).take (p.length + 1 + m.length + 1 - p.length)
        = j := by
      rw [List.drop_left]
      have hlen : j.length = m.length + 2 := by rw [hm]; simp
      have harith : p.length + 1 + m.length + 1 - p.length = j.length := by omega
      rw [harith, List.take_left]
    rw [hcand, if_pos hjl]
  · obtain ⟨m, hm, hsegm⟩ := harr l hl
    rw [← hu] at hm
    have hfind : scanFind ⟨false, false, 0, 0⟩ (p ++ (j ++ sfx)) 0 = some (false, p.length) := by
      rw [scanFind_skip p hp (j ++ sfx) 0, hm]
      simp [scanFind]
    rw [hfind]
    dsimp only
    have hdrop : (p ++ (j ++ sfx)).drop (p.length + 1) = m ++ (']' :: sfx) := by
      rw [hm]
      have : p ++ ('[' :: (m ++ [']']) ++ sfx) = (p ++ ['[']) ++ (m ++ (']' :: sfx)) := by
        simp
      rw [this]
      have hl2 : p.length + 1 = (p ++ ['[']).length := by simp
      rw [hl2, List.drop_left]
    have hend : scanEnd false (initSt false) ((p ++ (j ++ sfx)).drop (p.length + 1)) (p.length + 1)
        = some (p.length + 1 + m.length + 1) := by
      rw [hdrop]
      have : initSt false = ⟨false, false, 0, 1⟩ := by simp [initSt]
      rw [this]
      exact scanEnd_close_brack m hsegm sfx (p.length + 1)
    rw [hend]
    dsimp only
    have hcand : ((p ++ (j ++ sfx)).drop p.length).take (p.length + 1 + m.length + 1 - p.length)
        = j := by
      rw [List.drop_left]
      have hlen : j.length = m.length + 2 := by rw [hm]; simp
      have harith : p.length + 1 + m.length + 1 - p.length = j.length := by omega
      rw [harith, List.take_left]
    rw [hcand, if_pos hjl]


/-- `j` is exactly one JSON object or array (no surrounding padding), as
accepted by `json.loads`. -/
def isExactObjArr (j : Str) : Bool :=
  match pValue (jparseFuel j) j with
  | some (JVal.obj _, []) => true
  | some (JVal.arr _, []) => true
  | _ => false

/-- C2 (counterexample): on the input ```` ```json 5 ``` ```` the Span Extractor
returns `"5"`, which is not a JSON object or array — and the input contains no
JSON object or array substring at all, so it also fails the claim's second
half.  `isObjArrText` checks whether a text parses as a JSON object/array. -/
def isObjArrText (cs : Str) : Bool :=
  match jparse cs with
  | some (JVal.obj _) => true
  | some (JVal.arr _) => true
  | _ => false

/-- C1 (counterexample): the input `see { here {"a":1}` contains the
well-formed JSON object `{"a":1}` as a substring, yet
`extract_json_from_response` raises `NoJsonFound` (`none`): the stray `{` in
the prose opens the span early and the depth never returns to zero. -/
theorem C1_counterexample :
    jloads "\x7b\"a\":1\x7d".data = true ∧
    IsSubstring ("\x7b\"a\":1\x7d".data) ("see \x7b here \x7b\"a\":1\x7d".data) ∧
    extract_json_from_response ("see \x7b here \x7b\"a\":1\x7d".data) = none := by
  refine ⟨by decide, ⟨"see \x7b here ".data, [], by decide⟩, by decide⟩

/-- C1 (amended): for every input of the form `p ++ j ++ sfx` where `j` is
exactly a well-formed JSON object or array, the prose prefix `p` contains none
of the scanner-active characters `{`, `[`, `"`, `\`, and the whole text
contains no ```` ```json ```` fence marker, `extract_json_from_response`
returns exactly `j` (the suffix is arbitrary).  The claim's original
universal form is refuted by `C1_counterexample`. -/
theorem C1_amended (p j sfx : Str)
    (hp : ∀ c ∈ p, cleanChar c = true)
    (hfence : containsSeq fenceMarker (p ++ (j ++ sfx)) = false)
    (hj : isExactObjArr j = true) :
    extract_json_from_response (p ++ (j ++ sfx)) = some j := by
  unfold isExactObjArr at hj
  cases hpv : pValue (jparseFuel j) j with
  | none => rw [hpv] at hj; cases hj
  | some pr =>
    obtain ⟨v, r⟩ := pr
    rw [hpv] at hj
    cases v with
    | obj l =>
      cases r with
      | nil => exact extract_embedded p j sfx (.obj l) hp hfence hpv (Or.inl ⟨l, rfl⟩)
      | cons x xs => simp at hj
    | arr l =>
      cases r with
      | nil => exact extract_embedded p j sfx (.arr l) hp hfence hpv (Or.inr ⟨l, rfl⟩)
      | cons x xs => simp at hj
    | str s2 => simp at hj
    | num q => simp at hj
    | bool b => simp at hj
    | null => simp at hj
    | nan => simp at hj
    | inf b => simp at hj

/-- C1 (witness): the amended theorem applied to the concrete input
`Result: {"ok":true} done`. -/
theorem C1_amended_witness :
    extract_json_from_response ("Result: ".data ++ ("\x7b\"ok\":true\x7d".data ++ " done".data))
      = some ("\x7b\"ok\":true\x7d".data) :=
  C1_amended "Result: ".data "\x7b\"ok\":true\x7d".data " done".data
    (by decide) (by decide) (by decide)

theorem C2_counterexample :
    extract_json_from_response ("```json 5 ```".data) = some ("5".data) ∧
    isObjArrText ("5".data) = false ∧
    anyContig isObjArrText ("```json 5 ```".data) = false := by
  refine ⟨by decide, by decide, by decide⟩

/-- C2 (amended): every string the Span Extractor returns is a contiguous
substring of the input that `json.loads` accepts — but via the fenced-block
path it may be any JSON value (e.g. the scalar `5`), not only an object or
array; consequently, an input none of whose substrings is valid JSON fails
with the `NoJsonFound` `ValueError` (`none`).  The original claim's
"object or array" form is refuted by `C2_counterexample`. -/
theorem C2_amended (cs : Str) :
    (∀ r, extract_json_from_response cs = some r → IsSubstring r cs ∧ jloads r = true) ∧
    (anyContig jloads cs = false → extract_json_from_response cs = none) := by
  constructor
  · intro r h
    exact extract_sound cs r h
  · intro hnone
    cases hx : extract_json_from_response cs with
    | none => rfl
    | some r =>
      obtain ⟨hsub, hl⟩ := extract_sound cs r hx
      have hfalse := anyContig_false hnone r hsub
      rw [hl] at hfalse
      cases hfalse

/-- C2 (witness): the amended theorem applied to a concrete input with no
valid JSON substring. -/
theorem C2_amended_witness : extract_json_from_response ("no json here!!".data) = none :=
  (C2_amended ("no json here!!".data)).2 (by decide)


/-! ## Receipt schema validator (`core/json_formatter.py`)

Pydantic models become structures; field validators run at construction.
Type checking of JSON inputs is structural (a `str` field accepts a JSON
string, a `float` field a JSON number, a `bool` field a JSON boolean;
`None`/absent follow pydantic's `Optional`/default rules; extra keys are
ignored).  Pydantic's lax coercions between mismatched primitive types
(e.g. the string "1.5" for a float field) are not modelled; no claim
exercises them. -/

structure MerchantInfo where
  name : Option Str
  address : Option Str
  phone : Option Str
  vat_number : Option Str
deriving DecidableEq

structure TransactionInfo where
  date : Option Str
  time : Option Str
  receipt_number : Option Str
  country : Option Str
  currency : Option Str
deriving DecidableEq

structure ReceiptItem where
  description : Str
  quantity : ℚ
  unit_price : Option ℚ
  total_price : Option ℚ
  tax_rate : Option ℚ
deriving DecidableEq

structure Totals where
  subtotal : Option ℚ
  tax : Option ℚ
  total : Option ℚ
  total_calculated : Option ℚ
  total_matches : Option Bool
deriving DecidableEq

structure ReceiptData where
  is_receipt : Bool
  category : Option Str
  merchant : Option MerchantInfo
  transaction : Option TransactionInfo
  items : List ReceiptItem
  totals : Option Totals
  notes : Option Str
  reason : Option Str
deriving DecidableEq

structure InvalidReceipt where
  is_receipt : Bool
  reason : Str
deriving DecidableEq

/-- `ReceiptItem.must_be_positive`: "if v is not None and v < 0: return abs(v)". -/
def must_be_positive (v : Option ℚ) : Option ℚ :=
  match v with
  | some x => if x < 0 then some |x| else some x
  | none => none

/-- Building a `ReceiptItem` runs `must_be_positive` on `quantity`,
`unit_price` and `total_price` (not on `tax_rate`), as the
`field_validator` declaration does. -/
def mkReceiptItem (description : Str) (quantity : ℚ)
    (unit_price total_price tax_rate : Option ℚ) : ReceiptItem :=
  { description := description
    quantity := if quantity < 0 then |quantity| else quantity
    unit_price := must_be_positive unit_price
    total_price := must_be_positive total_price
    tax_rate := tax_rate }

def valid_categories : List Str :=
  ["Food & Drinks".data, "Events & Entertainment".data, "Travel & Transport".data,
   "Housing & Utilities".data, "Shopping & Essentials".data, "On-Chain Life".data]

def joinComma : List Str → Str
  | [] => []
  | [x] => x
  | x :: y :: t => x ++ (", ".data ++ joinComma (y :: t))

/-- The `ValueError` message of `ReceiptData.validate_category`. -/
def categoryErrMsg (v : Str) : Str :=
  "Invalid category: ".data ++ (v ++ (". Valid categories: ".data ++ joinComma valid_categories))

/-- `ReceiptData.validate_category`. -/
def validate_category (v : Option Str) : Except Str (Option Str) :=
  match v with
  | none => .ok none
  | some s => if s ∈ valid_categories then .ok (some s) else .error (categoryErrMsg s)

/-- `sum(item.total_price for item in items if item.total_price is not None)`. -/
def sumTotalPrices (items : List ReceiptItem) : ℚ :=
  (items.filterMap (fun it => it.total_price)).sum

/-- `Totals.calculate_from_items` (mutation modelled as returning the new record). -/
def calculate_from_items (t : Totals) (items : List ReceiptItem) (tol : ℚ) : Totals :=
  let t1 := { t with total_calculated := some (sumTotalPrices items) }
  match t1.total with
  | some tv =>
    { t1 with
      total_matches := some (match t1.total_calculated with
        | some c => decide (|tv - c| ≤ tol)
        | none => false) }
  | none => { t1 with total := t1.total_calculated, total_matches := some true }

/-- `ReceiptData.validate_totals`: runs only when the totals block is present
and the items list is nonempty (`if self.totals and self.items`). -/
def validate_totals (r : ReceiptData) (tol : ℚ) : ReceiptData :=
  match r.totals with
  | some t => if r.items ≠ [] then { r with totals := some (calculate_from_items t r.items tol) } else r
  | none => r

def default_tolerance : ℚ := 1 / 100

/-- Python `dict` lookup on the parsed object: later duplicate keys win. -/
def jget (fields : List (Str × JVal)) (k : Str) : Option JVal :=
  fields.foldl (fun acc p => if p.1 = k then some p.2 else acc) none

def getOptStr (fields : List (Str × JVal)) (k : Str) : Except Str (Option Str) :=
  match jget fields k with
  | none => .ok none
  | some JVal.null => .ok none
  | some (JVal.str s) => .ok (some s)
  | some _ => .error ("Input should be a valid string: ".data ++ k)

def getOptNum (fields : List (Str × JVal)) (k : Str) : Except Str (Option ℚ) :=
  match jget fields k with
  | none => .ok none
  | some JVal.null => .ok none
  | some (JVal.num x) => .ok (some x)
  | some _ => .error ("Input should be a valid number: ".data ++ k)

def getOptBool (fields : List (Str × JVal)) (k : Str) : Except Str (Option Bool) :=
  match jget fields k with
  | none => .ok none
  | some JVal.null => .ok none
  | some (JVal.bool b) => .ok (some b)
  | some _ => .error ("Input should be a valid boolean: ".data ++ k)

def merchantFromJVal (v : JVal) : Except Str MerchantInfo :=
  match v with
  | JVal.obj fs => do
    let name ← getOptStr fs "name".data
    let address ← getOptStr fs "address".data
    let phone ← getOptStr fs "phone".data
    let vat ← getOptStr fs "vat_number".data
    pure ⟨name, address, phone, vat⟩
  | _ => .error "merchant: input should be an object".data

def transactionFromJVal (v : JVal) : Except Str TransactionInfo :=
  match v with
  | JVal.obj fs => do
    let date ← getOptStr fs "date".data
    let time ← getOptStr fs "time".data
    let rn ← getOptStr fs "receipt_number".data
    let country ← getOptStr fs "country".data
    let currency ← getOptStr fs "currency".data
    pure ⟨date, time, rn, country, currency⟩
  | _ => .error "transaction: input should be an object".data

def itemFromJVal (v : JVal) : Except Str ReceiptItem :=
  match v with
  | JVal.obj fs => do
    let desc ← match jget fs "description".data with
      | some (JVal.str s) => Except.ok s
      | _ => Except.error "description: field required".data
    let q ← match jget fs "quantity".data with
      | none => Except.ok (1 : ℚ)
      | some (JVal.num x) => Except.ok x
      | some _ => Except.error "quantity: input should be a valid number".data
    let up ← getOptNum fs "unit_price".data
    let tp ← getOptNum fs "total_price".data
    let tr ← getOptNum fs "tax_rate".data
    pure (mkReceiptItem desc q up tp tr)
  | _ => .error "item: input should be an object".data

def totalsFromJVal (v : JVal) : Except Str Totals :=
  match v with
  | JVal.obj fs => do
    let st ← getOptNum fs "subtotal".data
    let tax ← getOptNum fs "tax".data
    let total ← getOptNum fs "total".data
    let tc ← getOptNum fs "total_calculated".data
    let tm ← getOptBool fs "total_matches".data
    pure ⟨st, tax, total, tc, tm⟩
  | _ => .error "totals: input should be an object".data

/-- `ReceiptData(**data)`. -/
def receiptFromJVal (fs : List (Str × JVal)) : Except Str ReceiptData := do
  let isr ← match jget fs "is_receipt".data with
    | none => Except.ok true
    | some (JVal.bool b) => Except.ok b
    | some _ => Except.error "is_receipt: input should be a valid boolean".data
  let catRaw ← getOptStr fs "category".data
  let category ← validate_category catRaw
  let merchant ← match jget fs "merchant".data with
    | none => Except.ok none
    | some JVal.null => Except.ok none
    | some v => (merchantFromJVal v).map some
  let transaction ← match jget fs "transaction".data with
    | none => Except.ok none
    | some JVal.null => Except.ok none
    | some v => (transactionFromJVal v).map some
  let items ← match jget fs "items".data with
    | none => Except.ok []
    | some (JVal.arr l) => l.mapM itemFromJVal
    | some _ => Except.error "items: input should be a valid list".data
  let totals ← match jget fs "totals".data with
    | none => Except.ok none
    | some JVal.null => Except.ok none
    | some v => (totalsFromJVal v).map some
  let notes ← getOptStr fs "notes".data
  let reason ← getOptStr fs "reason".data
  pure ⟨isr, category, merchant, transaction, items, totals, notes, reason⟩

/-- `InvalidReceipt(**data)` (`reason` is a required `str`). -/
def invalidFromJVal (fs : List (Str × JVal)) : Except Str InvalidReceipt := do
  let isr ← match jget fs "is_receipt".data with
    | none => Except.ok false
    | some (JVal.bool b) => Except.ok b
    | some _ => Except.error "is_receipt: input should be a valid boolean".data
  let reason ← match jget fs "reason".data with
    | some (JVal.str s) => Except.ok s
    | _ => Except.error "reason: field required".data
  pure ⟨isr, reason⟩

/-- Python exceptions crossing the boundary of the embedded functions. -/
inductive PyErr where
  | valueError (msg : Str)
  | typeError
  | attributeError
  | validationError (msg : Str)
  | other (msg : Str)
deriving DecidableEq

/-- The tagged union returned by `parse_receipt_json`. -/
inductive ParsedReceipt where
  | receipt (r : ReceiptData)
  | invalid (r : InvalidReceipt)
deriving DecidableEq

/-- `data.get("is_receipt") is not True` — identity comparison with `True`. -/
def isTrueVal : Option JVal → Bool
  | some (JVal.bool true) => true
  | _ => false

/-- `parse_receipt_json` (`core/json_formatter.py`): decode, branch on the
`is_receipt` flag, validate the matching pydantic model, then reconcile
totals with the default tolerance. -/
def parse_receipt_json (cs : Str) : Except PyErr ParsedReceipt :=
  match jparse cs with
  | none => .error (.valueError "Invalid JSON".data)
  | some v =>
    match v with
    | JVal.obj fs =>
      if isTrueVal (jget fs "is_receipt".data) then
        match receiptFromJVal fs with
        | .ok r => .ok (.receipt (validate_totals r default_tolerance))
        | .error m => .error (.validationError m)
      else
        match invalidFromJVal fs with
        | .ok r => .ok (.invalid r)
        | .error m => .error (.validationError m)
    | _ => .error .attributeError


theorem isSub_append_left (a : Str) {r b : Str} (h : IsSubstring r b) :
    IsSubstring r (a ++ b) := by
  obtain ⟨x, y, hxy⟩ := h
  exact ⟨a ++ x, y, by rw [hxy]; simp [List.append_assoc]⟩

/-- Totals observed after parsing a valid receipt: the stored
`total_calculated` together with the actual sum over the items. -/
def c3_obs (cs : Str) : Option (Option ℚ × ℚ) :=
  match parse_receipt_json cs with
  | .ok (.receipt r) =>
    match r.totals with
    | some t => some (t.total_calculated, sumTotalPrices r.items)
    | none => none
  | _ => none

/-- C3 (counterexample): a valid receipt with an empty items list and a
totals block keeps whatever `total_calculated` the model reported (here 99)
instead of the sum over items (0): `validate_totals` skips the reconciliation
when `self.items` is falsy. -/
theorem C3_counterexample :
    c3_obs "\x7b\"is_receipt\": true, \"items\": [], \"totals\": \x7b\"total_calculated\": 99.0\x7d\x7d".data
      = some (some 99, 0) ∧ (some (99 : ℚ) : Option ℚ) ≠ some 0 := by
  refine ⟨by with_unfolding_all rfl, by norm_num⟩

/-- C3 (amended): when a totals block is present and the items list is
nonempty, the validator replaces the totals with `calculate_from_items`,
whose `total_calculated` is the sum of the non-null `total_price`s; a stated
total is kept and `total_matches` holds exactly when it is within the 0.01
default tolerance of that sum; an absent total is set to the sum with
`total_matches` forced true.  With an empty items list or no totals block the
record passes through unchanged. -/
theorem C3_totals (r : ReceiptData) :
    (∀ t, r.totals = some t → r.items ≠ [] →
      (validate_totals r default_tolerance).totals
          = some (calculate_from_items t r.items default_tolerance) ∧
      (calculate_from_items t r.items default_tolerance).total_calculated
          = some (sumTotalPrices r.items) ∧
      (∀ x, t.total = some x →
        (calculate_from_items t r.items default_tolerance).total = some x ∧
        ((calculate_from_items t r.items default_tolerance).total_matches = some true ↔
          |x - sumTotalPrices r.items| ≤ default_tolerance)) ∧
      (t.total = none →
        (calculate_from_items t r.items default_tolerance).total
            = some (sumTotalPrices r.items) ∧
        (calculate_from_items t r.items default_tolerance).total_matches = some true)) ∧
    (r.totals = none ∨ r.items = [] → validate_totals r default_tolerance = r) := by
  constructor
  · intro t ht hi
    refine ⟨?_, ?_, ?_, ?_⟩
    · unfold validate_totals
      rw [ht]
      dsimp only
      rw [if_pos hi]
    · simp only [calculate_from_items]
      cases htt : t.total <;> simp
    · intro x hx
      simp only [calculate_from_items, hx]
      constructor
      · trivial
      · simp
    · intro hx
      simp only [calculate_from_items, hx]
      exact ⟨trivial, trivial⟩
  · intro hor
    unfold validate_totals
    rcases hor with hn | hi
    · rw [hn]
    · cases htt : r.totals with
      | none => rfl
      | some t =>
        dsimp only
        rw [if_neg (by simp [hi])]

/-- C3 (witness): the spec's instance — items with total prices 5.0 and 3.0,
a totals block with no stated total — yields total 8.0 and a true match
flag. -/
def rC3example : ReceiptData :=
  ⟨true, none, none, none,
   [⟨"a".data, 1, none, some 5, none⟩, ⟨"b".data, 1, none, some 3, none⟩],
   some ⟨none, none, none, none, none⟩, none, none⟩

theorem C3_witness :
    (validate_totals rC3example default_tolerance).totals
      = some (calculate_from_items ⟨none, none, none, none, none⟩
          rC3example.items default_tolerance) ∧
    (calculate_from_items ⟨none, none, none, none, none⟩
        rC3example.items default_tolerance).total = some 8 ∧
    (calculate_from_items ⟨none, none, none, none, none⟩
        rC3example.items default_tolerance).total_matches = some true := by
  have h := (C3_totals rC3example).1 ⟨none, none, none, none, none⟩ rfl (by decide)
  have h8 : sumTotalPrices rC3example.items = 8 := by with_unfolding_all rfl
  refine ⟨h.1, ?_, ((h.2.2.2 rfl).2)⟩
  rw [(h.2.2.2 rfl).1, h8]

/-- C4: every line item accepted by the Schema Validator has non-negative
`quantity`, `unit_price` and `total_price`: negative inputs are replaced by
their absolute values, null stays null (captured by `Option.map`), and
`tax_rate` is passed through un-flipped.  (`itemFromJVal` builds every parsed
item through `mkReceiptItem`.) -/
theorem C4_item_normalization (d : Str) (q : ℚ) (up tp tr : Option ℚ) :
    (mkReceiptItem d q up tp tr).quantity = |q| ∧
    (mkReceiptItem d q up tp tr).unit_price = up.map (fun x => |x|) ∧
    (mkReceiptItem d q up tp tr).total_price = tp.map (fun x => |x|) ∧
    (mkReceiptItem d q up tp tr).tax_rate = tr ∧
    0 ≤ (mkReceiptItem d q up tp tr).quantity := by
  have habs : ∀ x : ℚ, (if x < 0 then |x| else x) = |x| := by
    intro x
    split_ifs with hx
    · rfl
    · rw [abs_of_nonneg (le_of_not_lt hx)]
  have hmb : ∀ o : Option ℚ, must_be_positive o = o.map (fun x => |x|) := by
    intro o
    cases o with
    | none => rfl
    | some x =>
      simp only [must_be_positive, Option.map_some']
      split_ifs with hx
      · rfl
      · rw [abs_of_nonneg (le_of_not_lt hx)]
  refine ⟨?_, hmb up, hmb tp, rfl, ?_⟩
  · simp only [mkReceiptItem]
    exact habs q
  · simp only [mkReceiptItem]
    rw [habs q]
    exact abs_nonneg q

/-- C7: `validate_category` accepts exactly `None` and the six-value closed
enumeration, and rejects anything else with a `ValueError` whose message
names the offending value and lists all six valid categories. -/
theorem C7_category_validation (v : Option Str) :
    (validate_category v = Except.ok v ↔ v = none ∨ ∃ s, v = some s ∧ s ∈ valid_categories) ∧
    (∀ s, v = some s → s ∉ valid_categories →
      validate_category v = Except.error (categoryErrMsg s) ∧
      IsSubstring s (categoryErrMsg s) ∧
      ∀ c ∈ valid_categories, IsSubstring c (categoryErrMsg s)) := by
  constructor
  · cases v with
    | none => simp [validate_category]
    | some s =>
      by_cases hs : s ∈ valid_categories
      · simp [validate_category, hs]
      · simp only [validate_category, if_neg hs]
        constructor
        · intro h
          cases h
        · intro h
          rcases h with h | ⟨s2, hs2, hmem⟩
          · cases h
          · injection hs2 with hs2
            subst hs2
            exact absurd hmem hs
  · intro s hv hs
    subst hv
    refine ⟨by simp [validate_category, hs], ?_, ?_⟩
    · exact ⟨"Invalid category: ".data,
        ". Valid categories: ".data ++ joinComma valid_categories,
        by simp [categoryErrMsg, List.append_assoc]⟩
    · intro c hc
      have hsubJ : IsSubstring c (joinComma valid_categories) := by
        simp only [valid_categories, List.mem_cons, List.not_mem_nil, or_false] at hc
        rcases hc with rfl | rfl | rfl | rfl | rfl | rfl
        · exact ⟨[], ", Events & Entertainment, Travel & Transport, Housing & Utilities, Shopping & Essentials, On-Chain Life".data, by decide⟩
        · exact ⟨"Food & Drinks, ".data, ", Travel & Transport, Housing & Utilities, Shopping & Essentials, On-Chain Life".data, by decide⟩
        · exact ⟨"Food & Drinks, Events & Entertainment, ".data, ", Housing & Utilities, Shopping & Essentials, On-Chain Life".data, by decide⟩
        · exact ⟨"Food & Drinks, Events & Entertainment, Travel & Transport, ".data, ", Shopping & Essentials, On-Chain Life".data, by decide⟩
        · exact ⟨"Food & Drinks, Events & Entertainment, Travel & Transport, Housing & Utilities, ".data, ", On-Chain Life".data, by decide⟩
        · exact ⟨"Food & Drinks, Events & Entertainment, Travel & Transport, Housing & Utilities, Shopping & Essentials, ".data, [], by decide⟩
      unfold categoryErrMsg
      exact isSub_append_left _ (isSub_append_left _ (isSub_append_left _ hsubJ))

/-- C7 (witness): the unknown category `"Misc"` is rejected with the message
that names it and contains the first valid category. -/
theorem C7_witness :
    validate_category (some "Misc".data) = Except.error (categoryErrMsg "Misc".data) ∧
    IsSubstring "Misc".data (categoryErrMsg "Misc".data) ∧
    IsSubstring "Food & Drinks".data (categoryErrMsg "Misc".data) := by
  have h := (C7_category_validation (some "Misc".data)).2 "Misc".data rfl (by decide)
  exact ⟨h.1, h.2.1, h.2.2 "Food & Drinks".data (by decide)⟩


/-! ## Extraction orchestrator (`core/extraction_orchestrator.py`) and
error handler (`core/error_handler.py`)

External collaborators are oracles: the image processor is a function of the
`optimize` flag, the API client a scripted behaviour per call index (the
prompts and token budgets the orchestrator passes to it do not influence the
claims and are absorbed by the script).  The prompt builder is a pure total
function per its interface (spec §6).  The whole orchestrator lives in an
explicit `Except PyErr` channel: anything the Python source leaves outside a
`try/except` would surface as `Except.error`; every `match` below models one
of the source's catch sites. -/

structure Usage where
  prompt_tokens : Int
  completion_tokens : Int
  total_tokens : Int
deriving DecidableEq

/-- A response dict of `analyze_receipt`: `success`, `content` (`None` when
absent), `error` (read only when `success` is false), `usage` (`usage_data`,
possibly `None`) and `metrics` (a dict the orchestrator passes through
untouched, modelled as a `JVal`). -/
structure ApiResponse where
  success : Bool
  content : Option Str
  error : Str
  usage : Option Usage
  metrics : JVal

inductive ClientBehavior where
  | raises (e : PyErr)
  | returns (r : ApiResponse)

inductive ImageBehavior where
  | raises (e : PyErr)
  | returns (bytes : Str) (mime : Str)

/-- The `data` payload of a success result: `model_dump()` of the parsed
model, or the raw decoded validation dict in the two-step early return. -/
inductive SuccessData where
  | record (r : ReceiptData)
  | invalid (r : InvalidReceipt)
  | rawJson (v : JVal)

/-- The `usage` field of a result: the single stage's value, or the two-step
combination `{validation, extraction, total_tokens}`. -/
inductive UsageOut where
  | simple (u : Option Usage)
  | combined (validation extraction : Option Usage) (total_tokens : Int)

/-- The `metrics` field of a result: one stage's dict, or the two-key
`{validation, extraction}` structure. -/
inductive MetricsOut where
  | simple (m : JVal)
  | combined (validation extraction : JVal)

/-- Failure kinds, one per `ErrorHandler` method. -/
inductive FailKind where
  | imageProcessing
  | api
  | parsing
  | validation
  | apiValidation
  | apiExtraction
deriving DecidableEq

inductive ExtractResult where
  | success (data : SuccessData) (is_receipt : Bool) (usage : UsageOut)
      (metrics : MetricsOut) (raw_response : Option Str)
  | failure (kind : FailKind) (msg : Str) (raw_response : Option Str)

/-- Python `str(e)`. -/
def pyStr : PyErr → Str
  | .valueError m => m
  | .typeError => "TypeError".data
  | .attributeError => "AttributeError".data
  | .validationError m => m
  | .other m => m

def handle_image_processing_error (e : PyErr) : ExtractResult :=
  .failure .imageProcessing ("Erreur de traitement image : ".data ++ pyStr e) none

def handle_api_error (e : PyErr) : ExtractResult :=
  .failure .api ("Erreur API : ".data ++ pyStr e) none

/-- `handle_parsing_error` adds the raw response only when it is truthy. -/
def handle_parsing_error (e : PyErr) (raw : Option Str) : ExtractResult :=
  .failure .parsing ("Erreur de parsing : ".data ++ pyStr e)
    (match raw with
     | some r => if r = [] then none else some r
     | none => none)

def handle_validation_error (e : PyErr) : ExtractResult :=
  .failure .validation ("Erreur validation : ".data ++ pyStr e) none

def handle_api_validation_error (e : PyErr) : ExtractResult :=
  .failure .apiValidation ("Erreur API validation : ".data ++ pyStr e) none

def handle_api_extraction_error (e : PyErr) : ExtractResult :=
  .failure .apiExtraction ("Erreur API extraction : ".data ++ pyStr e) none

/-- `extract_json_from_response` as the orchestrator calls it: `ValueError`
when no span parses, `TypeError` when the content is `None` (`re.search` on
`None`). -/
def parserExc (content : Option Str) : Except PyErr Str :=
  match content with
  | none => .error .typeError
  | some c =>
    match extract_json_from_response c with
    | some r => .ok r
    | none => .error (.valueError
        "Impossible d'extraire un objet ou un tableau JSON complet et valide.".data)

def jsonLoadsExc (cs : Str) : Except PyErr JVal :=
  match jparse cs with
  | some v => .ok v
  | none => .error (.valueError "Invalid JSON".data)

/-- Python truthiness of a decoded JSON value. -/
def jtruthy : JVal → Bool
  | .obj l => !l.isEmpty
  | .arr l => !l.isEmpty
  | .str s => !s.isEmpty
  | .num q => decide (q ≠ 0)
  | .bool b => b
  | .null => false
  | .nan => true
  | .inf _ => true

/-- `validation_data.get("is_receipt", False)` under `if not …`: needs a dict
(`AttributeError` otherwise), defaults to `False`, judged by truthiness. -/
def getIsReceiptFlag (v : JVal) : Except PyErr Bool :=
  match v with
  | .obj fs =>
    .ok (jtruthy (match jget fs "is_receipt".data with
      | some x => x
      | none => JVal.bool false))
  | _ => .error .attributeError

/-- `response.get("usage", {}).get("total_tokens", 0)`: a stored `None` usage
makes the second `.get` raise `AttributeError`. -/
def getTotalTokens (u : Option Usage) : Except PyErr Int :=
  match u with
  | none => .error .attributeError
  | some x => .ok x.total_tokens

def dumpOf : ParsedReceipt → SuccessData
  | .receipt r => .record r
  | .invalid i => .invalid i

/-- `isinstance(receipt_data, ReceiptData)`. -/
def isReceiptInstance : ParsedReceipt → Bool
  | .receipt _ => true
  | .invalid _ => false

/-- The two-step validation `try` block: extract the span, `json.loads` it,
read the flag; `some result` is the early `return` for a falsy flag. -/
def validationCheck (vr : ApiResponse) : Except PyErr (Option ExtractResult) := do
  let js ← parserExc vr.content
  let v ← jsonLoadsExc js
  let flag ← getIsReceiptFlag v
  if flag then
    pure none
  else
    pure (some (.success (.rawJson v) false (.simple vr.usage) (.simple vr.metrics) none))

/-- The two-step extraction `try` block: parse fully, then build the combined
usage/metrics result (`is_receipt` is hard-coded `True` in the source). -/
def extractionBuild (vr er : ApiResponse) : Except PyErr ExtractResult := do
  let js ← parserExc er.content
  let pr ← parse_receipt_json js
  let t1 ← getTotalTokens vr.usage
  let t2 ← getTotalTokens er.usage
  pure (.success (dumpOf pr) true (.combined vr.usage er.usage (t1 + t2))
    (.combined vr.metrics er.metrics) er.content)

/-- `ExtractionOrchestrator._extract_two_step`; also counts API calls. -/
def _extract_two_step (client : Nat → ClientBehavior) : Except PyErr (ExtractResult × Nat) :=
  match client 0 with
  | .raises e => pure (handle_api_validation_error e, 1)
  | .returns vr =>
    if vr.success = false then
      pure (handle_api_validation_error (.other vr.error), 1)
    else
      match validationCheck vr with
      | .error e => pure (handle_validation_error e, 1)
      | .ok (some early) => pure (early, 1)
      | .ok none =>
        match client 1 with
        | .raises e => pure (handle_api_extraction_error e, 2)
        | .returns er =>
          if er.success = false then
            pure (handle_api_extraction_error (.other er.error), 2)
          else
            match extractionBuild vr er with
            | .ok res => pure (res, 2)
            | .error e => pure (handle_parsing_error e er.content, 2)

/-- The one-shot `try` block: `is_receipt` is derived from which pydantic
variant came back. -/
def oneShotBuild (r0 : ApiResponse) : Except PyErr ExtractResult := do
  let js ← parserExc r0.content
  let pr ← parse_receipt_json js
  pure (.success (dumpOf pr) (isReceiptInstance pr) (.simple r0.usage)
    (.simple r0.metrics) r0.content)

/-- `ExtractionOrchestrator._extract_one_shot`. -/
def _extract_one_shot (client : Nat → ClientBehavior) : Except PyErr (ExtractResult × Nat) :=
  match client 0 with
  | .raises e => pure (handle_api_error e, 1)
  | .returns r0 =>
    if r0.success = false then
      pure (handle_api_error (.other r0.error), 1)
    else
      match oneShotBuild r0 with
      | .ok res => pure (res, 1)
      | .error e => pure (handle_parsing_error e r0.content, 1)

/-- `ExtractionOrchestrator.extract`. -/
def orchestrator_extract (img : Bool → ImageBehavior) (client : Nat → ClientBehavior)
    (optimize two_step : Bool) : Except PyErr (ExtractResult × Nat) :=
  match img optimize with
  | .raises e => pure (handle_image_processing_error e, 0)
  | .returns _ _ =>
    if two_step then _extract_two_step client else _extract_one_shot client

/-! ## Backoff stats fetcher (`api/openrouter_client.py`, `get_generation_stats`) -/

inductive AttemptOutcome where
  | status (code : Nat) (body : JVal)
  | raise (e : PyErr)

/-- `response.json().get("data", {})` — needs a dict body. -/
def getDataField (body : JVal) : Except PyErr JVal :=
  match body with
  | .obj fs =>
    .ok (match jget fs "data".data with
      | some v => v
      | none => JVal.obj [])
  | _ => .error .attributeError

/-- Total variant of the payload projection, for statements. -/
def jgetD (fs : List (Str × JVal)) : JVal :=
  match jget fs "data".data with
  | some v => v
  | none => JVal.obj []

/-- The retry loop of `get_generation_stats`, with the HTTP exchange and the
`random.uniform` jitter as oracles.  `rem` is the number of loop iterations
left (`max_retries - attempt`); the accumulated sleeps are returned alongside
the result.  On 200, the parsed payload returns immediately (a body that is
not a dict makes `.get` raise inside the `try`, which is the exception path);
on 404 or an exception with attempts remaining the loop sleeps
`base * 2^attempt + jitter` and retries; anything else returns `None`. -/
def statsLoop (maxR : Nat) (base : ℚ) (out : Nat → AttemptOutcome) (jit : Nat → ℚ) :
    Nat → Nat → List ℚ → Option JVal × List ℚ
  | 0, _, acc => (none, acc.reverse)
  | rem + 1, attempt, acc =>
    match out attempt with
    | .status code body =>
      if code = 200 then
        match getDataField body with
        | .ok d => (some d, acc.reverse)
        | .error _ =>
          if attempt < maxR - 1 then
            statsLoop maxR base out jit rem (attempt + 1)
              ((base * 2 ^ attempt + jit attempt) :: acc)
          else (none, acc.reverse)
      else if code = 404 ∧ attempt < maxR - 1 then
        statsLoop maxR base out jit rem (attempt + 1)
          ((base * 2 ^ attempt + jit attempt) :: acc)
      else (none, acc.reverse)
    | .raise _ =>
      if attempt < maxR - 1 then
        statsLoop maxR base out jit rem (attempt + 1)
          ((base * 2 ^ attempt + jit attempt) :: acc)
      else (none, acc.reverse)

/-- `OpenRouterClient.get_generation_stats` with `max_retries` and
`self.config.delay` explicit. -/
def get_generation_stats (maxR : Nat) (base : ℚ) (out : Nat → AttemptOutcome)
    (jit : Nat → ℚ) : Option JVal × List ℚ :=
  statsLoop maxR base out jit maxR 0 []

/-- An attempt outcome the loop retries after: HTTP 404, or any exception. -/
def Retryable (out : Nat → AttemptOutcome) (i : Nat) : Prop :=
  (∃ b, out i = .status 404 b) ∨ (∃ e, out i = .raise e)


/-- C5: in two-step mode, when the validation response succeeds and its JSON
decodes to an object whose `is_receipt` flag is `false`, the orchestrator
returns the success result carrying `is_receipt = false`, the decoded dict as
payload, and only the validation stage's usage and metrics — after exactly
one API call (the extraction call is never issued). -/
theorem C5_two_step_early_return (client : Nat → ClientBehavior) (vr : ApiResponse)
    (c js : Str) (fs : List (Str × JVal))
    (h0 : client 0 = .returns vr)
    (h1 : vr.success = true)
    (h2 : vr.content = some c)
    (h3 : extract_json_from_response c = some js)
    (h4 : jparse js = some (JVal.obj fs))
    (h5 : jget fs "is_receipt".data = some (JVal.bool false)) :
    _extract_two_step client
      = Except.ok (ExtractResult.success (SuccessData.rawJson (JVal.obj fs)) false
          (UsageOut.simple vr.usage) (MetricsOut.simple vr.metrics) none, 1) := by
  have hvc : validationCheck vr
      = Except.ok (some (.success (.rawJson (JVal.obj fs)) false
          (.simple vr.usage) (.simple vr.metrics) none)) := by
    simp only [validationCheck, parserExc, jsonLoadsExc, getIsReceiptFlag, h2, h3, h4, h5,
      bind, Except.bind, jtruthy, pure, Except.pure]
    rfl
  unfold _extract_two_step
  rw [h0]
  dsimp only
  rw [if_neg (by rw [h1]; simp), hvc]
  rfl

/-- C5 (witness): the spec's validation response
`{"is_receipt": false, "reason": "blank page"}` returns success with
`is_receipt = false` after one call. -/
theorem C5_witness :
    _extract_two_step (fun n =>
      if n = 0 then
        .returns ⟨true, some "\x7b\"is_receipt\": false, \"reason\": \"blank page\"\x7d".data,
          [], none, JVal.null⟩
      else .raises .typeError)
      = Except.ok (ExtractResult.success
          (SuccessData.rawJson (JVal.obj
            [("is_receipt".data, JVal.bool false), ("reason".data, JVal.str "blank page".data)]))
          false (UsageOut.simple none) (MetricsOut.simple JVal.null) none, 1) := by
  exact C5_two_step_early_return _
    ⟨true, some "\x7b\"is_receipt\": false, \"reason\": \"blank page\"\x7d".data,
      [], none, JVal.null⟩
    "\x7b\"is_receipt\": false, \"reason\": \"blank page\"\x7d".data
    "\x7b\"is_receipt\": false, \"reason\": \"blank page\"\x7d".data
    [("is_receipt".data, JVal.bool false), ("reason".data, JVal.str "blank page".data)]
    rfl rfl rfl (by with_unfolding_all rfl) (by with_unfolding_all rfl)
    (by with_unfolding_all rfl)

/-- C8: in two-step mode with both calls succeeding and the extraction
response parsing, the result's usage is the combined structure whose
`total_tokens` is the sum of the two stages' `total_tokens`, and the metrics
are the two-key `{validation, extraction}` structure holding each stage's
metrics unsummed. -/
theorem C8_usage_combination (client : Nat → ClientBehavior) (vr er : ApiResponse)
    (c1 js1 c2 js2 : Str) (v1 : JVal) (pr : ParsedReceipt) (u1 u2 : Usage)
    (h0 : client 0 = .returns vr)
    (h1 : vr.success = true)
    (h2 : vr.content = some c1)
    (h3 : extract_json_from_response c1 = some js1)
    (h4 : jparse js1 = some v1)
    (h5 : getIsReceiptFlag v1 = Except.ok true)
    (h6 : client 1 = .returns er)
    (h7 : er.success = true)
    (h8 : er.content = some c2)
    (h9 : extract_json_from_response c2 = some js2)
    (h10 : parse_receipt_json js2 = Except.ok pr)
    (h11 : vr.usage = some u1)
    (h12 : er.usage = some u2) :
    _extract_two_step client
      = Except.ok (ExtractResult.success (dumpOf pr) true
          (UsageOut.combined vr.usage er.usage (u1.total_tokens + u2.total_tokens))
          (MetricsOut.combined vr.metrics er.metrics) er.content, 2) := by
  have hvc : validationCheck vr = Except.ok none := by
    simp only [validationCheck, parserExc, jsonLoadsExc, h2, h3, h4, h5,
      bind, Except.bind, if_true, pure, Except.pure]
  have heb : extractionBuild vr er
      = Except.ok (.success (dumpOf pr) true
          (.combined vr.usage er.usage (u1.total_tokens + u2.total_tokens))
          (.combined vr.metrics er.metrics) er.content) := by
    simp only [extractionBuild, parserExc, getTotalTokens, h8, h9, h10, h11, h12,
      bind, Except.bind, pure, Except.pure]
  unfold _extract_two_step
  rw [h0]
  dsimp only
  rw [if_neg (by rw [h1]; simp), hvc]
  dsimp only
  rw [h6]
  dsimp only
  rw [if_neg (by rw [h7]; simp), heb]
  rfl

/-- C8 (witness): concrete two-step run combining usages 10 and 32 into 42. -/
theorem C8_witness :
    _extract_two_step (fun n =>
      if n = 0 then
        .returns ⟨true, some "\x7b\"is_receipt\": true\x7d".data, [],
          some ⟨3, 7, 10⟩, JVal.str "mv".data⟩
      else
        .returns ⟨true, some "\x7b\"is_receipt\": true, \"items\": []\x7d".data, [],
          some ⟨30, 2, 32⟩, JVal.str "me".data⟩)
      = Except.ok (ExtractResult.success
          (SuccessData.record ⟨true, none, none, none, [], none, none, none⟩) true
          (UsageOut.combined (some ⟨3, 7, 10⟩) (some ⟨30, 2, 32⟩) 42)
          (MetricsOut.combined (JVal.str "mv".data) (JVal.str "me".data))
          (some "\x7b\"is_receipt\": true, \"items\": []\x7d".data), 2) := by
  exact C8_usage_combination _
    ⟨true, some "\x7b\"is_receipt\": true\x7d".data, [],
      some ⟨3, 7, 10⟩, JVal.str "mv".data⟩
    ⟨true, some "\x7b\"is_receipt\": true, \"items\": []\x7d".data, [],
      some ⟨30, 2, 32⟩, JVal.str "me".data⟩
    "\x7b\"is_receipt\": true\x7d".data "\x7b\"is_receipt\": true\x7d".data
    "\x7b\"is_receipt\": true, \"items\": []\x7d".data
    "\x7b\"is_receipt\": true, \"items\": []\x7d".data
    (JVal.obj [("is_receipt".data, JVal.bool true)])
    (ParsedReceipt.receipt ⟨true, none, none, none, [], none, none, none⟩)
    ⟨3, 7, 10⟩ ⟨30, 2, 32⟩
    rfl rfl rfl (by with_unfolding_all rfl) (by with_unfolding_all rfl)
    (by with_unfolding_all rfl) rfl rfl rfl (by with_unfolding_all rfl)
    (by with_unfolding_all rfl) rfl rfl

/-- C9: for every behaviour of the collaborators — the image processor and
the API client may raise or return anything, over any flag combination — the
orchestrator returns a result value: the explicit exception channel of the
embedding is never an `Except.error` at the boundary. -/
theorem C9_no_uncaught (img : Bool → ImageBehavior) (client : Nat → ClientBehavior)
    (optimize two_step : Bool) :
    ∃ res, orchestrator_extract img client optimize two_step = Except.ok res := by
  unfold orchestrator_extract
  cases img optimize with
  | raises e => exact ⟨_, rfl⟩
  | returns b m =>
    dsimp only
    cases two_step
    · rw [if_neg (by simp)]
      unfold _extract_one_shot
      cases client 0 with
      | raises e => exact ⟨_, rfl⟩
      | returns r0 =>
        dsimp only
        split_ifs
        · exact ⟨_, rfl⟩
        · cases oneShotBuild r0 with
          | ok res => exact ⟨_, rfl⟩
          | error e => exact ⟨_, rfl⟩
    · rw [if_pos rfl]
      unfold _extract_two_step
      cases client 0 with
      | raises e => exact ⟨_, rfl⟩
      | returns vr =>
        dsimp only
        split_ifs
        · exact ⟨_, rfl⟩
        · cases validationCheck vr with
          | error e => exact ⟨_, rfl⟩
          | ok o =>
            cases o with
            | some early => exact ⟨_, rfl⟩
            | none =>
              cases client 1 with
              | raises e => exact ⟨_, rfl⟩
              | returns er =>
                dsimp only
                split_ifs
                · exact ⟨_, rfl⟩
                · cases extractionBuild vr er with
                  | ok res => exact ⟨_, rfl⟩
                  | error e => exact ⟨_, rfl⟩

/-- C10: after a successful two-step extraction call the result's
`is_receipt` is hard-coded `True` — even when the extraction JSON's
`is_receipt` was not exactly `true`, so the schema validator returned the
`InvalidReceipt` variant whose payload becomes the result's data — whereas
one-shot mode derives `is_receipt` from the variant (`isinstance`), giving
`False` on the very same response. -/
theorem C10_is_receipt_flag (client client1 : Nat → ClientBehavior) (vr er : ApiResponse)
    (c1 js1 c2 js2 : Str) (v1 : JVal) (inv : InvalidReceipt) (u1 u2 : Usage)
    (h0 : client 0 = .returns vr)
    (h1 : vr.success = true)
    (h2 : vr.content = some c1)
    (h3 : extract_json_from_response c1 = some js1)
    (h4 : jparse js1 = some v1)
    (h5 : getIsReceiptFlag v1 = Except.ok true)
    (h6 : client 1 = .returns er)
    (h7 : er.success = true)
    (h8 : er.content = some c2)
    (h9 : extract_json_from_response c2 = some js2)
    (h10 : parse_receipt_json js2 = Except.ok (.invalid inv))
    (h11 : vr.usage = some u1)
    (h12 : er.usage = some u2)
    (hc1 : client1 0 = .returns er) :
    _extract_two_step client
      = Except.ok (ExtractResult.success (SuccessData.invalid inv) true
          (UsageOut.combined vr.usage er.usage (u1.total_tokens + u2.total_tokens))
          (MetricsOut.combined vr.metrics er.metrics) er.content, 2) ∧
    _extract_one_shot client1
      = Except.ok (ExtractResult.success (SuccessData.invalid inv) false
          (UsageOut.simple er.usage) (MetricsOut.simple er.metrics) er.content, 1) := by
  constructor
  · have hvc : validationCheck vr = Except.ok none := by
      simp only [validationCheck, parserExc, jsonLoadsExc, h2, h3, h4, h5,
        bind, Except.bind, if_true, pure, Except.pure]
    have heb : extractionBuild vr er
        = Except.ok (.success (.invalid inv) true
            (.combined vr.usage er.usage (u1.total_tokens + u2.total_tokens))
            (.combined vr.metrics er.metrics) er.content) := by
      simp only [extractionBuild, parserExc, getTotalTokens, h8, h9, h10, h11, h12,
        bind, Except.bind, pure, Except.pure, dumpOf]
    unfold _extract_two_step
    rw [h0]
    dsimp only
    rw [if_neg (by rw [h1]; simp), hvc]
    dsimp only
    rw [h6]
    dsimp only
    rw [if_neg (by rw [h7]; simp), heb]
    rfl
  · have hob : oneShotBuild er
        = Except.ok (.success (.invalid inv) false (.simple er.usage)
            (.simple er.metrics) er.content) := by
      simp only [oneShotBuild, parserExc, h8, h9, h10,
        bind, Except.bind, pure, Except.pure, dumpOf, isReceiptInstance]
    unfold _extract_one_shot
    rw [hc1]
    dsimp only
    rw [if_neg (by rw [h7]; simp), hob]
    rfl

/-- C10 (witness): an extraction response with `is_receipt: false` (plus the
required reason) is reported with `is_receipt = true` by two-step mode and
`is_receipt = false` by one-shot mode. -/
theorem C10_witness :
    _extract_two_step (fun n =>
      if n = 0 then
        .returns ⟨true, some "\x7b\"is_receipt\": true\x7d".data, [],
          some ⟨1, 1, 2⟩, JVal.null⟩
      else
        .returns ⟨true, some "\x7b\"is_receipt\": false, \"reason\": \"coupon\"\x7d".data, [],
          some ⟨1, 2, 3⟩, JVal.null⟩)
      = Except.ok (ExtractResult.success
          (SuccessData.invalid ⟨false, "coupon".data⟩) true
          (UsageOut.combined (some ⟨1, 1, 2⟩) (some ⟨1, 2, 3⟩) 5)
          (MetricsOut.combined JVal.null JVal.null)
          (some "\x7b\"is_receipt\": false, \"reason\": \"coupon\"\x7d".data), 2) ∧
    _extract_one_shot (fun _ =>
      .returns ⟨true, some "\x7b\"is_receipt\": false, \"reason\": \"coupon\"\x7d".data, [],
        some ⟨1, 2, 3⟩, JVal.null⟩)
      = Except.ok (ExtractResult.success
          (SuccessData.invalid ⟨false, "coupon".data⟩) false
          (UsageOut.simple (some ⟨1, 2, 3⟩)) (MetricsOut.simple JVal.null)
          (some "\x7b\"is_receipt\": false, \"reason\": \"coupon\"\x7d".data), 1) := by
  exact C10_is_receipt_flag _ _
    ⟨true, some "\x7b\"is_receipt\": true\x7d".data, [], some ⟨1, 1, 2⟩, JVal.null⟩
    ⟨true, some "\x7b\"is_receipt\": false, \"reason\": \"coupon\"\x7d".data, [],
      some ⟨1, 2, 3⟩, JVal.null⟩
    "\x7b\"is_receipt\": true\x7d".data "\x7b\"is_receipt\": true\x7d".data
    "\x7b\"is_receipt\": false, \"reason\": \"coupon\"\x7d".data
    "\x7b\"is_receipt\": false, \"reason\": \"coupon\"\x7d".data
    (JVal.obj [("is_receipt".data, JVal.bool true)])
    ⟨false, "coupon".data⟩ ⟨1, 1, 2⟩ ⟨1, 2, 3⟩
    rfl rfl rfl (by with_unfolding_all rfl) (by with_unfolding_all rfl)
    (by with_unfolding_all rfl) rfl rfl rfl (by with_unfolding_all rfl)
    (by with_unfolding_all rfl) rfl rfl rfl


/-- The sleeps performed by `k` consecutive retried attempts starting at
attempt index `attempt`. -/
def sleepList (base : ℚ) (jit : Nat → ℚ) : Nat → Nat → List ℚ
  | _, 0 => []
  | attempt, k + 1 =>
    (base * 2 ^ attempt + jit attempt) :: sleepList base jit (attempt + 1) k

theorem sleepList_eq (base : ℚ) (jit : Nat → ℚ) (k : Nat) : ∀ a : Nat,
    sleepList base jit a k
      = (List.range k).map (fun i => base * 2 ^ (a + i) + jit (a + i)) := by
  induction k with
  | zero => intro a; simp [sleepList]
  | succ k ih =>
    intro a
    rw [List.range_succ_eq_map]
    simp only [List.map_cons, List.map_map]
    rw [sleepList, ih (a + 1)]
    congr 1
    apply List.map_congr_left
    intro i _
    simp only [Function.comp_apply]
    have hsh : a + 1 + i = a + (i + 1) := by omega
    rw [hsh]

/-- Skipping `k` retried attempts: each retryable outcome with attempts
remaining adds one backoff sleep and advances the attempt counter. -/
theorem statsLoop_skip (maxR : Nat) (base : ℚ) (out : Nat → AttemptOutcome)
    (jit : Nat → ℚ) (k : Nat) : ∀ (rem attempt : Nat) (acc : List ℚ),
    (∀ i, i < k → Retryable out (attempt + i) ∧ attempt + i < maxR - 1) →
    statsLoop maxR base out jit (rem + k) attempt acc
      = statsLoop maxR base out jit rem (attempt + k)
          ((sleepList base jit attempt k).reverse ++ acc) := by
  induction k with
  | zero => intro rem attempt acc _; simp [sleepList]
  | succ k ih =>
    intro rem attempt acc h
    have h0 := h 0 (by omega)
    rw [Nat.add_zero] at h0
    have hrw : rem + (k + 1) = (rem + k) + 1 := by omega
    rw [hrw]
    have hstep : statsLoop maxR base out jit ((rem + k) + 1) attempt acc
        = statsLoop maxR base out jit (rem + k) (attempt + 1)
            ((base * 2 ^ attempt + jit attempt) :: acc) := by
      rcases h0.1 with ⟨b, hb⟩ | ⟨e, he⟩
      · rw [statsLoop, hb]
        dsimp only
        rw [if_neg (by decide), if_pos ⟨rfl, h0.2⟩]
      · rw [statsLoop, he]
        dsimp only
        rw [if_pos h0.2]
    rw [hstep]
    rw [ih rem (attempt + 1) ((base * 2 ^ attempt + jit attempt) :: acc)
      (fun i hi => by
        have hh := h (i + 1) (by omega)
        have heq : attempt + (i + 1) = attempt + 1 + i := by omega
        rw [heq] at hh
        exact hh)]
    rw [show attempt + 1 + k = attempt + (k + 1) from by omega]
    rw [sleepList, List.reverse_cons, List.append_assoc, List.singleton_append]

/-- After `k` retryable attempts the fetcher stands at attempt `k` with the
`k` backoff sleeps accumulated. -/
theorem stats_after_retries (maxR : Nat) (base : ℚ) (out : Nat → AttemptOutcome)
    (jit : Nat → ℚ) (k : Nat) (hk : k < maxR)
    (hr : ∀ i, i < k → Retryable out i) :
    get_generation_stats maxR base out jit
      = statsLoop maxR base out jit (maxR - k) k ((sleepList base jit 0 k).reverse) := by
  unfold get_generation_stats
  have hsplit : maxR = (maxR - k) + k := by omega
  nth_rewrite 2 [hsplit]
  rw [statsLoop_skip maxR base out jit k (maxR - k) 0 []
    (fun i hi => by rw [Nat.zero_add]; exact ⟨hr i hi, by omega⟩)]
  simp only [Nat.zero_add, List.append_nil]

/-- C6: backoff fetcher behaviour after `k` retryable attempts (each HTTP 404
or an exception): an HTTP 200 with a dict body returns its `data` payload at
once; a status that is neither 200 nor 404 returns `None`; when every attempt
is retryable the fetcher returns `None` after exhausting them with
`maxR - 1` sleeps; and each backoff sleep for attempt `i` is
`base * 2 ^ i` plus its jitter, lying in `[base * 2 ^ i, 1.1 * base * 2 ^ i]`
whenever the jitter oracle respects `random.uniform(0, delay * 0.1)`'s range.
No branch raises. -/
theorem C6_backoff (maxR : Nat) (base : ℚ) (out : Nat → AttemptOutcome)
    (jit : Nat → ℚ) (k : Nat) (fs : List (Str × JVal)) (code : Nat) (b : JVal)
    (hk : k < maxR)
    (hr : ∀ i, i < k → Retryable out i) :
    (out k = .status 200 (JVal.obj fs) →
      get_generation_stats maxR base out jit
        = (some (jgetD fs), (List.range k).map (fun i => base * 2 ^ i + jit i))) ∧
    (out k = .status code b → code ≠ 200 → code ≠ 404 →
      get_generation_stats maxR base out jit
        = (none, (List.range k).map (fun i => base * 2 ^ i + jit i))) ∧
    ((∀ i, i < maxR → Retryable out i) →
      get_generation_stats maxR base out jit
        = (none, (List.range (maxR - 1)).map (fun i => base * 2 ^ i + jit i))) ∧
    ((∀ i, 0 ≤ jit i ∧ jit i ≤ base * 2 ^ i / 10) →
      ∀ s ∈ (List.range k).map (fun i => base * 2 ^ i + jit i),
        ∃ i, i < k ∧ base * 2 ^ i ≤ s ∧ s ≤ base * 2 ^ i + base * 2 ^ i / 10) := by
  have hsl : (sleepList base jit 0 k).reverse.reverse
      = (List.range k).map (fun i => base * 2 ^ i + jit i) := by
    rw [List.reverse_reverse, sleepList_eq]
    simp only [Nat.zero_add]
  refine ⟨fun h200 => ?_, fun hoth hc2 hc4 => ?_, fun hall => ?_, fun hjit s hs => ?_⟩
  · rw [stats_after_retries maxR base out jit k hk hr]
    obtain ⟨m, hm⟩ : ∃ m, maxR - k = m + 1 := ⟨maxR - k - 1, by omega⟩
    rw [hm, statsLoop, h200]
    dsimp only [getDataField]
    rw [if_pos rfl]
    rw [hsl]
    rfl
  · rw [stats_after_retries maxR base out jit k hk hr]
    obtain ⟨m, hm⟩ : ∃ m, maxR - k = m + 1 := ⟨maxR - k - 1, by omega⟩
    rw [hm, statsLoop, hoth]
    dsimp only
    rw [if_neg (by simpa using hc2), if_neg (fun hc => hc4 (by simpa using hc.1))]
    rw [hsl]
  · have h1 : (1:Nat) ≤ maxR := by omega
    rw [stats_after_retries maxR base out jit (maxR - 1) (by omega)
      (fun i hi => hall i (by omega))]
    rw [show maxR - (maxR - 1) = 0 + 1 from by omega, statsLoop]
    have hsl1 : (sleepList base jit 0 (maxR - 1)).reverse.reverse
        = (List.range (maxR - 1)).map (fun i => base * 2 ^ i + jit i) := by
      rw [List.reverse_reverse, sleepList_eq]
      simp only [Nat.zero_add]
    rcases hall (maxR - 1) (by omega) with ⟨b2, hb⟩ | ⟨e, he⟩
    · rw [hb]
      dsimp only
      rw [if_neg (by decide), if_neg (fun hc => absurd hc.2 (by omega))]
      rw [hsl1]
    · rw [he]
      dsimp only
      rw [if_neg (by omega)]
      rw [hsl1]
  · simp only [List.mem_map, List.mem_range] at hs
    obtain ⟨i, hi, rfl⟩ := hs
    exact ⟨i, hi, by linarith [(hjit i).1], by linarith [(hjit i).2]⟩

/-- C6 (witness): three 404s then a 200 with `max_retries = 4`, base delay 1
and a zero-jitter draw return the payload after sleeps 1, 2, 4. -/
theorem C6_witness :
    get_generation_stats 4 1
      (fun n => if n < 3 then .status 404 JVal.null
        else .status 200 (JVal.obj [("data".data, JVal.str "ok".data)]))
      (fun _ => 0)
      = (some (JVal.str "ok".data), [1, 2, 4]) := by
  have h := (C6_backoff 4 1
    (fun n => if n < 3 then .status 404 JVal.null
      else .status 200 (JVal.obj [("data".data, JVal.str "ok".data)]))
    (fun _ => 0) 3 [("data".data, JVal.str "ok".data)] 0 JVal.null
    (by decide)
    (fun i hi => by
      interval_cases i <;> exact Or.inl ⟨JVal.null, rfl⟩)).1 rfl
  rw [h]
  with_unfolding_all rfl


end WeSplit
